import Mathlib

/-!
Verification development for the generic resource-browsing engine of the
aws-tui repository (Go).  The Go sources are shallowly embedded: Go strings
become lists of characters, Go slices become Lean lists, Go maps become
association lists or lookup functions, and Go panics (out-of-range slice
indexing) surface as Option.none.  Each definition mirrors one Go function
and keeps its name where Lean allows.

Sources embedded here:
  - internal/ui/views/resource_list.go  (ResourceListView: pagination state
    machine, message handling, key dispatch)
  - internal/ui/components/table.go     (Table: filter, stable bubble sort)
  - internal/ui/components/tagfilter.go (FilterByTags)
  - internal/handlers/registry.go       (Registry)
  - internal/handlers/types.go          (Resource / handler data model)
  - internal/ui/components/footer.go    (Footer status state)
  - internal/ui/app.go                  (App.Update cases for list-load
    results and the navigation-via-result protocol)
-/

open List

/-! ## Go string primitives

Go strings are embedded as lists of characters.  Byte-wise comparison of
UTF-8 strings agrees with code-point lexicographic comparison, which is what
strLt implements; strings.ToLower is modelled by mapping Char.toLower
(ASCII case folding, which covers every string the engine compares). -/

abbrev GoStr := List Char

/-- Model of strings.ToLower. -/
def golower (s : GoStr) : GoStr := s.map Char.toLower

/-- Model of strings.HasPrefix: sub is a prefix of s. -/
def strHasPrefix : GoStr → GoStr → Bool
  | _, [] => true
  | [], _ :: _ => false
  | c :: s, d :: p => c == d && strHasPrefix s p

/-- Model of strings.Contains: sub occurs as a contiguous substring of s. -/
def strContains : GoStr → GoStr → Bool
  | [], sub => strHasPrefix [] sub
  | c :: s, sub => strHasPrefix (c :: s) sub || strContains s sub

/-- Model of the Go string comparison v1 < v2 (lexicographic). -/
def strLt : GoStr → GoStr → Bool
  | [], [] => false
  | [], _ :: _ => true
  | _ :: _, [] => false
  | a :: as, b :: bs => if a < b then true else if b < a then false else strLt as bs

/-! ## Data model (internal/handlers/types.go) -/

/-- ColumnDef from types.go: one table column. -/
structure ColumnDef where
  title : GoStr
  width : Int
  sortable : Bool
deriving DecidableEq, Repr

/-- Action from types.go: a single-key resource operation. -/
structure GoAction where
  key : GoStr
  name : GoStr
  description : GoStr
  dangerous : Bool
deriving DecidableEq, Repr

/-- A Resource value as observed through the Resource interface of types.go.
The display projection ToTableRow is stored in the row field; the tag map is
an association list whose keys are unique (Go map semantics). -/
structure Resource where
  id : GoStr
  arn : GoStr
  name : GoStr
  rtype : GoStr
  region : GoStr
  tags : List (GoStr × GoStr)
  row : List GoStr
deriving DecidableEq, Repr

/-- Zero Resource value, used only as the default of list indexing that the
source guarantees to be in range. -/
def emptyResource : Resource :=
  { id := [], arn := [], name := [], rtype := [], region := [], tags := [], row := [] }

/-- The result channel of a handler List call: either a page together with a
continuation token, or an error (its message text). -/
inductive ListOutcome where
  | okPage (resources : List Resource) (nextToken : GoStr)
  | errList (msg : GoStr)
deriving DecidableEq, Repr

/-- The result channel of ExecuteAction.  Go overloads the error return: nil
means success, an error satisfying the ActionMsg marker interface is a
navigation payload, any other error is a plain failure.  Following that
structural three-way distinction the embedding is a tagged union; the
navServices variant is the NavigateToServicesAction payload declared in
ec2_instances.go (the other navigation payload types flow through App.Update
in exactly the same shape). -/
inductive ActionOutcome where
  | ok
  | plainErr (msg : GoStr)
  | navServices (clusterARN clusterName : GoStr)
deriving DecidableEq, Repr

/-- The observable face of a ResourceHandler (types.go interface): metadata,
column schema, declared actions, and the synchronous ExecuteAction.  The
asynchronous List call stays outside the handler value: the engine only
produces request descriptors (ListRequest) and consumes ResourcesLoadedMsg
events, mirroring the tea.Cmd boundary. -/
structure HandlerSpec where
  resourceType : GoStr
  resourceName : GoStr
  shortcutKey : GoStr
  columns : List ColumnDef
  actions : List GoAction
  executeAction : GoStr → GoStr → ActionOutcome

/-- A List request issued by the engine: the Filter and NextToken fields of
the ListOptions passed to handler.List (PageSize is the constant 50). -/
structure ListRequest where
  filter : GoStr
  token : GoStr
deriving DecidableEq, Repr

/-- ResourcesLoadedMsg from resource_list.go: the event a completed List
call sends back to the orchestration loop. -/
structure ResourcesLoadedMsg where
  resources : List Resource
  nextToken : GoStr
  error : Option GoStr
deriving DecidableEq, Repr

/-- Body of the closure built by loadResourcesWithToken: runs the List call
of a (fake) adapter and wraps the outcome as a ResourcesLoadedMsg.  On error
the other fields stay at their zero values, exactly as in the source. -/
def runListCmd (list : GoStr → GoStr → ListOutcome) (req : ListRequest) : ResourcesLoadedMsg :=
  match list req.filter req.token with
  | .okPage rs tok => { resources := rs, nextToken := tok, error := none }
  | .errList e => { resources := [], nextToken := [], error := some e }

/-! ## FilterByTags (internal/ui/components/tagfilter.go, lines 386-410) -/

/-- FilterResources from tagfilter.go: a resource survives when, for every
active filter pair, its tag map has the key and the tag value (lowercased)
contains the filter value (lowercased) as a substring.  The Go map iteration
with early break computes exactly this conjunction. -/
def FilterByTags (resources : List Resource) (tags : List (GoStr × GoStr)) : List Resource :=
  if tags.isEmpty then resources
  else
    resources.filter fun res =>
      tags.all fun kv =>
        match res.tags.lookup kv.1 with
        | some resVal => strContains (golower resVal) (golower kv.2)
        | none => false

/-- Declarative reading of the tag-filter claim: the resource matches every
active filter pair, case-insensitively, by substring. -/
def MatchesAllTags (res : Resource) (tags : List (GoStr × GoStr)) : Prop :=
  ∀ kv ∈ tags, ∃ resVal, res.tags.lookup kv.1 = some resVal ∧
    golower kv.2 <:+: golower resVal

/-! ## Table (internal/ui/components/table.go)

The theme, dimensions and rendering are cosmetic and omitted; the cursor
movement handlers (lines 275-382 of table.go) are outside every claim and
are likewise not modelled.  All data-bearing state is kept. -/

structure Table where
  columns : List ColumnDef
  rows : List (List GoStr)
  resources : List Resource
  cursor : Nat
  offset : Nat
  filter : GoStr
  filtered : List Nat
  sortColumn : Int
  sortAscending : Bool
  focused : Bool

/-- NewTable: zero state with focus, no sort column. -/
def NewTable : Table :=
  { columns := [], rows := [], resources := [], cursor := 0, offset := 0,
    filter := [], filtered := [], sortColumn := -1, sortAscending := true,
    focused := true }

def Table.SetColumns (t : Table) (columns : List ColumnDef) : Table :=
  { t with columns := columns }

/-- Table.SetResources: replaces the resources, recomputes the rows through
ToTableRow, resets the filtered index set to every row, clamps the cursor
and resets the scroll offset.  The stored filter text is left untouched. -/
def Table.SetResources (t : Table) (resources : List Resource) : Table :=
  let rows := resources.map (·.row)
  let filtered := range resources.length
  { t with resources := resources, rows := rows, filtered := filtered,
           cursor := if t.cursor ≥ filtered.length then 0 else t.cursor,
           offset := 0 }

/-- Table.ApplyFilter: stores the lowercased filter and recomputes the
filtered index set; a row survives when any cell contains the filter.  The
Go inner loop with break is the any-combinator. -/
def Table.ApplyFilter (t : Table) (filter : GoStr) : Table :=
  let f := golower filter
  let filtered :=
    if f = [] then range t.rows.length
    else (range t.rows.length).filter fun i =>
      (t.rows.getD i []).any fun cell => strContains (golower cell) f
  { t with filter := f, filtered := filtered,
           cursor := if t.cursor ≥ filtered.length then 0 else t.cursor,
           offset := 0 }

/-- Table.SelectedResource: the resource under the cursor, through the
filtered index set; nil when out of range. -/
def Table.SelectedResource (t : Table) : Option Resource :=
  if t.filtered.length = 0 ∨ t.cursor ≥ t.filtered.length then none
  else
    let idx := t.filtered.getD t.cursor 0
    if idx ≥ t.resources.length then none
    else some (t.resources.getD idx emptyResource)

def Table.Focus (t : Table) : Table := { t with focused := true }

def Table.Blur (t : Table) : Table := { t with focused := false }

/-- One bounded inner pass of the bubble sort in Table.Sort: the first
argument counts the remaining comparisons (the Go loop bound n-1-i), each
recursive step is one iteration comparing positions j and j+1 of the current
slice and swapping when less(a[j+1], a[j]). -/
def gopass (less : Nat → Nat → Bool) : Nat → List Nat → List Nat
  | 0, l => l
  | _ + 1, [] => []
  | _ + 1, [x] => [x]
  | b + 1, x :: y :: rest =>
      if less y x then y :: gopass less b (x :: rest)
      else x :: gopass less b (y :: rest)

/-- The outer loop of the bubble sort: passes with bounds b, b-1, ..., 1,
matching the Go bounds n-1-i for i = 0, ..., n-2. -/
def gosortAux (less : Nat → Nat → Bool) : Nat → List Nat → List Nat
  | 0, l => l
  | b + 1, l => gosortAux less b (gopass less (b + 1) l)

/-- The whole bubble sort of Table.Sort on the index slice. -/
def gosort (less : Nat → Nat → Bool) (l : List Nat) : List Nat :=
  gosortAux less (l.length - 1) l

/-- The comparison closure of Table.Sort (lines 223-240 of table.go): false
on any out-of-range access, otherwise a case-insensitive string comparison
of the designated column, direction chosen by sortAscending.  It reads the
rows as they are when Sort starts, exactly like the Go closure. -/
def Table.lessFn (t : Table) (i j : Nat) : Bool :=
  if i ≥ t.rows.length ∨ j ≥ t.rows.length then false
  else
    let rowI := t.rows.getD i []
    let rowJ := t.rows.getD j []
    if t.sortColumn ≥ (rowI.length : Int) ∨ t.sortColumn ≥ (rowJ.length : Int) then false
    else
      let valI := golower (rowI.getD t.sortColumn.toNat [])
      let valJ := golower (rowJ.getD t.sortColumn.toNat [])
      if t.sortAscending then strLt valI valJ else strLt valJ valI

/-- The permutation Table.Sort computes: the index slice 0..n-1 run through
the stable bubble sort under the comparison closure. -/
def Table.sortIndices (t : Table) : List Nat :=
  gosort t.lessFn (range t.resources.length)

/-- Table.Sort: no-op without a valid sort column or without resources;
otherwise reorders resources and rows by the sorted index slice and reapplies
the stored filter.  (The Go code writes newResources[i] = resources[idx];
every idx is below the resources length, and rows and resources have equal
length in every state the engine builds, so the map below writes the same
entries.) -/
def Table.Sort (t : Table) : Table :=
  if t.sortColumn = -1 ∨ t.sortColumn ≥ (t.columns.length : Int) ∨ t.resources.length = 0
  then t
  else
    let indices := t.sortIndices
    let newResources := indices.map fun idx => t.resources.getD idx emptyResource
    let newRows := indices.map fun idx => t.rows.getD idx []
    Table.ApplyFilter { t with resources := newResources, rows := newRows } t.filter

/-- Table.ToggleSortDirection: reverses the direction and re-sorts; no-op
when no sort column is active. -/
def Table.ToggleSortDirection (t : Table) : Table :=
  if t.sortColumn = -1 then t
  else Table.Sort { t with sortAscending := !t.sortAscending }

/-- Table.CycleSortColumn: advances to the next sortable column (wrapping,
skipping non-sortable ones), resets the direction to ascending and sorts.
The Go currentPos search yielding -1 when the sort column is not among the
sortable ones is folded into the successor position computation. -/
def Table.CycleSortColumn (t : Table) : Table :=
  if t.columns.length = 0 then t
  else
    let sortableColumns :=
      (range t.columns.length).filter fun i => (t.columns.getD i ⟨[], 0, false⟩).sortable
    if sortableColumns.length = 0 then t
    else
      let nextPos :=
        (match sortableColumns.findIdx? (fun c => (c : Int) = t.sortColumn) with
         | some pos => pos + 1
         | none => 0) % sortableColumns.length
      Table.Sort { t with sortColumn := (sortableColumns.getD nextPos 0 : Int),
                          sortAscending := true }

/-- Sort key of row i of a table: the lowercased cell in the sort column.
This is the value the comparison closure compares once its range guards have
passed. -/
def Table.keyOf (t : Table) (i : Nat) : GoStr :=
  golower ((t.rows.getD i []).getD t.sortColumn.toNat [])

/-! ## ResourceListView (internal/ui/views/resource_list.go)

The search and tag-filter overlay components are modelled by their activity
flags and the state the view reads from them; the detail pane by its two
flags.  Rendering and dimensions are cosmetic and omitted. -/

structure ResourceListView where
  handler : Option HandlerSpec
  table : Table
  searchActive : Bool
  searchResults : Nat × Nat
  tagFilterActive : Bool
  tagFilterResources : List Resource
  tagFilterSelected : List (GoStr × GoStr)
  resources : List Resource
  filteredByTags : List Resource
  activeTags : List (GoStr × GoStr)
  loading : Bool
  error : Option GoStr
  showDetail : Bool
  detailFocus : Bool
  nextToken : GoStr
  prevTokens : List GoStr
  currentPage : Nat
  hasMore : Bool
  totalLoaded : Nat

/-- NewResourceListView: Go zero values (note currentPage starts at 0; it
first becomes 1 in SetHandler). -/
def NewResourceListView : ResourceListView :=
  { handler := none, table := NewTable, searchActive := false,
    searchResults := (0, 0), tagFilterActive := false,
    tagFilterResources := [], tagFilterSelected := [],
    resources := [], filteredByTags := [], activeTags := [],
    loading := false, error := none, showDetail := false, detailFocus := false,
    nextToken := [], prevTokens := [], currentPage := 0, hasMore := false,
    totalLoaded := 0 }

/-- ResourceListView.SetHandler (lines 85-100): installs the handler and its
columns, clears the page, tag-filter and detail state, and resets the whole
pagination state. -/
def ResourceListView.SetHandler (v : ResourceListView) (handler : HandlerSpec) :
    ResourceListView :=
  { v with handler := some handler,
           table := v.table.SetColumns handler.columns,
           resources := [], filteredByTags := [],
           activeTags := [], tagFilterSelected := [],
           showDetail := false,
           nextToken := [], prevTokens := [], currentPage := 1,
           hasMore := false, totalLoaded := 0 }

/-- loadResourcesWithToken (lines 128-149): nil handler yields no command;
otherwise the loading flag is set and a List request with the given filter
and token (and PageSize 50) is issued. -/
def ResourceListView.loadResourcesWithToken (v : ResourceListView)
    (filter token : GoStr) : ResourceListView × Option ListRequest :=
  if v.handler.isNone then (v, none)
  else ({ v with loading := true }, some ⟨filter, token⟩)

/-- LoadResources (lines 123-125): first page, empty token. -/
def ResourceListView.LoadResources (v : ResourceListView) (filter : GoStr) :
    ResourceListView × Option ListRequest :=
  v.loadResourcesWithToken filter []

/-- LoadNextPage (lines 152-175).  The Go code reads prevTokens at index
currentPage-1 under the guard len(prevTokens) >= currentPage-1, so the read
is out of range (a Go panic, modelled as none) exactly when the stack length
equals currentPage-1.  On success the token that led to the current page is
pushed when the stack is shorter than currentPage, the page counter is
incremented and the stored nextToken is replayed. -/
def ResourceListView.LoadNextPage (v : ResourceListView) :
    Option (ResourceListView × Option ListRequest) :=
  if ¬v.hasMore ∨ v.nextToken = [] then some (v, none)
  else
    let v1 := if v.currentPage = 1 then { v with prevTokens := [[]] } else v
    let currentToken? : Option GoStr :=
      if v1.currentPage > 1 ∧ v1.prevTokens.length ≥ v1.currentPage - 1
      then v1.prevTokens.get? (v1.currentPage - 1)
      else some []
    currentToken?.map fun currentToken =>
      let v2 := if v1.prevTokens.length < v1.currentPage
                then { v1 with prevTokens := v1.prevTokens ++ [currentToken] }
                else v1
      let v3 := { v2 with currentPage := v2.currentPage + 1 }
      v3.loadResourcesWithToken [] v3.nextToken

/-- LoadPrevPage (lines 178-190): no-op at page 1; otherwise decrements the
page counter and replays the stored token of the new page (the implicit
empty token for page 1).  The stack itself is not popped.  The same indexing
pattern as in LoadNextPage can read out of range (none). -/
def ResourceListView.LoadPrevPage (v : ResourceListView) :
    Option (ResourceListView × Option ListRequest) :=
  if v.currentPage ≤ 1 then some (v, none)
  else
    let v1 := { v with currentPage := v.currentPage - 1 }
    let token? : Option GoStr :=
      if v1.currentPage > 1 ∧ v1.prevTokens.length ≥ v1.currentPage - 1
      then v1.prevTokens.get? (v1.currentPage - 1)
      else some []
    token?.map fun token => v1.loadResourcesWithToken [] token

/-- Refresh (lines 618-634): nil handler yields no command; otherwise closes
the detail pane, focuses the table, resets the pagination state and reloads
the first page. -/
def ResourceListView.Refresh (v : ResourceListView) :
    ResourceListView × Option ListRequest :=
  if v.handler.isNone then (v, none)
  else
    let v1 := { v with loading := true, detailFocus := false, showDetail := false,
                       table := v.table.Focus,
                       currentPage := 1, prevTokens := [], nextToken := [],
                       hasMore := false }
    v1.LoadResources []

/-- The ResourcesLoadedMsg case of ResourceListView.Update (lines 217-240).
On error only the loading flag and error field change.  On success the page
is installed, the tag-filter catalogue is rebuilt from the new page, active
tag filters are reapplied, and the table receives the (tag-filtered) page —
which resets its filtered index set; the stored free-text query is not
reapplied. -/
def ResourceListView.updateResourcesLoaded (v : ResourceListView)
    (msg : ResourcesLoadedMsg) : ResourceListView :=
  let v0 := { v with loading := false }
  match msg.error with
  | some e => { v0 with error := some e }
  | none =>
      let v1 := { v0 with error := none, resources := msg.resources,
                          totalLoaded := msg.resources.length,
                          nextToken := msg.nextToken,
                          hasMore := msg.nextToken ≠ [],
                          tagFilterResources := msg.resources }
      if v1.activeTags.length > 0 then
        let ft := FilterByTags msg.resources v1.activeTags
        { v1 with filteredByTags := ft,
                  table := v1.table.SetResources ft,
                  searchResults := (ft.length, msg.resources.length) }
      else
        { v1 with filteredByTags := msg.resources,
                  table := v1.table.SetResources msg.resources,
                  searchResults := (msg.resources.length, msg.resources.length) }

/-- True when the active handler declares an action on the given key: the
hasCreateAction / hasRotationAction / hasTagsAction loops of Update. -/
def ResourceListView.hasActionKey (v : ResourceListView) (k : GoStr) : Bool :=
  v.handler.elim false fun h => h.actions.any fun a => a.key = k

/-- The first declared action matching the key, as found by the dispatch
loop of Update (lines 411-434). -/
def ResourceListView.actionFor (v : ResourceListView) (k : GoStr) : Option GoAction :=
  v.handler.bind fun h => h.actions.find? fun a => a.key = k

/-- Observable outcome of one key press in the resource-list view: which
branch of Update fired and what command it produced.  Branches that only
route into sub-components (their internal updates are outside the claims)
are recorded as routed. -/
inductive KeyEffect where
  | searchActivated
  | copyARN (arn : GoStr)
  | copyJSON
  | detailRequest (id : GoStr)
  | detailToggledOff
  | focusSwitched
  | searchDismissed
  | refreshIssued (req : Option ListRequest)
  | actionDispatched (name id : GoStr) (outcome : ActionOutcome)
  | sortCycled
  | sortToggled
  | tagFilterActivated
  | pageRequest (req : Option ListRequest)
  | routedTagFilter
  | routedSearch
  | routedDetail
  | routedTable
  | noEffect
deriving DecidableEq, Repr

/-- The command of LoadResourceDetail (lines 193-210): a Describe request
for the selected resource, nil without handler or selection. -/
def ResourceListView.detailReq (v : ResourceListView) : KeyEffect :=
  match v.handler, v.table.SelectedResource with
  | some _, some res => .detailRequest res.id
  | _, _ => .noEffect

/-- The tea.KeyMsg case of ResourceListView.Update (lines 296-511), branch
for branch in source order.  The result is none exactly when the pressed key
reaches LoadNextPage or LoadPrevPage and that call panics.  Cursor movement
inside the table and the internal updates of the search and tag-filter
overlays are recorded as routed effects without being re-modelled. -/
def ResourceListView.updateKey (v : ResourceListView) (key : GoStr) :
    Option (ResourceListView × KeyEffect) :=
  if key = "/".toList ∧ ¬v.searchActive then
    some ({ v with table := v.table.Blur, searchActive := true }, .searchActivated)
  else if key = "c".toList ∧ ¬v.searchActive ∧ ¬v.hasActionKey ("c".toList) then
    match v.table.SelectedResource with
    | some res => some (v, .copyARN res.arn)
    | none => some (v, .noEffect)
  else if key = "C".toList ∧ ¬v.searchActive then
    if v.showDetail then some (v, .copyJSON)
    else
      match v.table.SelectedResource with
      | some res => some (v, .copyARN res.arn)
      | none => some (v, .noEffect)
  else if key = "d".toList ∧ ¬v.searchActive then
    if v.showDetail then
      some ({ v with showDetail := false, detailFocus := false,
                     table := v.table.Focus }, .detailToggledOff)
    else some (v, v.detailReq)
  else if key = "tab".toList ∧ v.showDetail then
    let focus := ¬v.detailFocus
    some ({ v with detailFocus := focus,
                   table := if focus then v.table.Blur else v.table.Focus },
          .focusSwitched)
  else if key = "esc".toList ∧ v.searchActive then
    some ({ v with searchActive := false, table := v.table.Focus }, .searchDismissed)
  else if key = "esc".toList ∧ v.showDetail ∧ ¬v.searchActive then
    some ({ v with showDetail := false, detailFocus := false,
                   table := v.table.Focus }, .detailToggledOff)
  else if key = "ctrl+r".toList ∧ ¬v.searchActive ∧ ¬v.tagFilterActive then
    let (v1, req) := v.Refresh
    some (v1, .refreshIssued req)
  else if key = "r".toList ∧ ¬v.searchActive ∧ ¬v.tagFilterActive ∧
      ¬v.hasActionKey ("r".toList) then
    let (v1, req) := v.Refresh
    some (v1, .refreshIssued req)
  else if ¬v.searchActive ∧ ¬v.tagFilterActive ∧ (v.actionFor key).isSome then
    match v.handler, v.actionFor key with
    | some h, some action =>
        (match v.table.SelectedResource with
         | some res =>
             some (v, .actionDispatched action.name res.id
                        (h.executeAction action.name res.id))
         | none => some (v, .noEffect))
    | _, _ => some (v, .noEffect)
  else if key = "o".toList ∧ ¬v.searchActive ∧ ¬v.tagFilterActive then
    some ({ v with table := v.table.CycleSortColumn }, .sortCycled)
  else if key = "O".toList ∧ ¬v.searchActive ∧ ¬v.tagFilterActive then
    some ({ v with table := v.table.ToggleSortDirection }, .sortToggled)
  else if key = "t".toList ∧ ¬v.searchActive ∧ ¬v.tagFilterActive ∧
      ¬v.hasActionKey ("t".toList) then
    some ({ v with table := v.table.Blur, tagFilterActive := true }, .tagFilterActivated)
  else if (key = "n".toList ∨ key = "]".toList) ∧ ¬v.searchActive ∧ ¬v.tagFilterActive then
    if v.hasMore then
      (v.LoadNextPage).map fun p => (p.1, .pageRequest p.2)
    else some (v, .noEffect)
  else if (key = "N".toList ∨ key = "[".toList) ∧ ¬v.searchActive ∧ ¬v.tagFilterActive then
    if v.currentPage > 1 then
      (v.LoadPrevPage).map fun p => (p.1, .pageRequest p.2)
    else some (v, .noEffect)
  else if v.tagFilterActive then some (v, .routedTagFilter)
  else if v.searchActive then some (v, .routedSearch)
  else if v.detailFocus ∧ v.showDetail then some (v, .routedDetail)
  else some (v, .routedTable)

/-- What the action-dispatch branch emits back to the orchestration loop
(lines 419-431): a navigation payload becomes its own message, a plain error
becomes an ActionErrorMsg carrying the error and the action name, success
emits nothing. -/
inductive ViewEmission where
  | navigateToServices (clusterARN clusterName : GoStr)
  | actionError (errMsg actionName : GoStr)
deriving DecidableEq, Repr

/-- The classification of an ExecuteAction result performed by the dispatch
branch: the err.(ActionMsg) type test in structural form. -/
def emittedOfOutcome (outcome : ActionOutcome) (actionName : GoStr) : Option ViewEmission :=
  match outcome with
  | .ok => none
  | .plainErr e => some (.actionError e actionName)
  | .navServices arn name => some (.navigateToServices arn name)

/-! ## Registry (internal/handlers/registry.go)

The two Go maps are lookup functions, the order slice a list.  The mutex
only serialises access and has no sequential meaning. -/

structure Registry where
  handlers : GoStr → Option HandlerSpec
  aliases : GoStr → Option GoStr
  order : List GoStr

def NewRegistry : Registry :=
  { handlers := fun _ => none, aliases := fun _ => none, order := [] }

/-- Registry.Register (lines 25-40): stores the handler under its type
(overwriting), appends the type to the order slice unconditionally, and
registers the shortcut key (when non-empty) and resource name as aliases. -/
def Registry.Register (r : Registry) (handler : HandlerSpec) : Registry :=
  let resourceType := handler.resourceType
  let r1 := { r with
    handlers := fun t => if t = resourceType then some handler else r.handlers t,
    order := r.order ++ [resourceType] }
  let r2 :=
    if handler.shortcutKey ≠ [] then
      { r1 with aliases := fun a =>
          if a = handler.shortcutKey then some resourceType else r1.aliases a }
    else r1
  { r2 with aliases := fun a =>
      if a = handler.resourceName then some resourceType else r2.aliases a }

/-- Registry.Get (lines 43-58): direct lookup first, then through the alias
map; the Bool mirrors the Go ok flag. -/
def Registry.Get (r : Registry) (typeOrAlias : GoStr) : Option HandlerSpec × Bool :=
  match r.handlers typeOrAlias with
  | some h => (some h, true)
  | none =>
      match r.aliases typeOrAlias with
      | some actual => (r.handlers actual, true)
      | none => (none, false)

/-- Registry.All (lines 61-72): the handlers found in the map, enumerated in
order-slice order. -/
def Registry.All (r : Registry) : List HandlerSpec :=
  r.order.filterMap r.handlers

/-- Registry.Types (lines 75-82): a copy of the order slice. -/
def Registry.Types (r : Registry) : List GoStr :=
  r.order

/-! ## App (internal/ui/app.go)

Only the state that the claims observe is modelled: the footer status
fields, the active view state, the resource list, the registry, the
breadcrumb and the loading flag. -/

/-- Footer from components/footer.go: status-line state. -/
structure Footer where
  message : GoStr
  messageErr : Bool
  loading : Bool
  loadingMsg : GoStr
  page : Nat
  hasMore : Bool
  count : Nat
  handlerActions : List GoAction

def Footer.SetMessage (f : Footer) (msg : GoStr) (isError : Bool) : Footer :=
  { f with message := msg, messageErr := isError }

def Footer.ClearMessage (f : Footer) : Footer :=
  { f with message := [], messageErr := false }

def Footer.SetLoading (f : Footer) (loading : Bool) (msg : GoStr) : Footer :=
  { f with loading := loading, loadingMsg := msg }

def Footer.SetPagination (f : Footer) (page : Nat) (hasMore : Bool) (count : Nat) : Footer :=
  { f with page := page, hasMore := hasMore, count := count }

def Footer.SetHandlerActions (f : Footer) (actions : List GoAction) : Footer :=
  { f with handlerActions := actions }

inductive AppState where
  | home
  | resourceList
  | secretEditor
  | secretCreator
deriving DecidableEq, Repr

structure App where
  state : AppState
  region : GoStr
  resourceList : ResourceListView
  footer : Footer
  registry : Registry
  breadcrumb : List GoStr
  loading : Bool

/-- The views.ResourcesLoadedMsg case of App.Update (lines 369-382): the
view consumes the message, the loading indicator clears, and the status line
shows the error or — on success — clears and shows the pagination info. -/
def App.applyResourcesLoaded (a : App) (msg : ResourcesLoadedMsg) : App :=
  let rl := a.resourceList.updateResourcesLoaded msg
  let a1 := { a with resourceList := rl, loading := false,
                     footer := a.footer.SetLoading false [] }
  match msg.error with
  | some e => { a1 with footer := a1.footer.SetMessage ("Error: ".toList ++ e) true }
  | none =>
      { a1 with footer :=
          (a1.footer.ClearMessage).SetPagination rl.currentPage rl.hasMore rl.totalLoaded }

/-- The *handlers.NavigateToServicesAction case of App.Update (lines
431-446): builds the services handler for the payload cluster, switches to
the resource-list state, sets the breadcrumb, installs the handler (which
resets pagination), publishes its actions, raises the loading indicator and
issues the fresh List.  The AWS-client-bound constructor
NewECSServicesHandlerForCluster is abstracted as the mkServicesHandler
argument (region, clusterARN, clusterName). -/
def App.applyNavigateToServices (mkServicesHandler : GoStr → GoStr → GoStr → HandlerSpec)
    (a : App) (clusterARN clusterName : GoStr) : App × Option ListRequest :=
  let handler := mkServicesHandler a.region clusterARN clusterName
  let a1 := { a with
    state := .resourceList,
    breadcrumb := ["ECS".toList, "Clusters".toList, clusterName, "Services".toList],
    resourceList := a.resourceList.SetHandler handler,
    footer := (a.footer.SetHandlerActions handler.actions).SetLoading true
      ("Loading services...".toList),
    loading := true }
  let (rl, req) := a1.resourceList.LoadResources []
  ({ a1 with resourceList := rl }, req)

/-- The views.ActionErrorMsg case of App.Update (lines 588-590): only the
status line changes. -/
def App.applyActionError (a : App) (errMsg : GoStr) : App :=
  { a with footer := a.footer.SetMessage ("Action failed: ".toList ++ errMsg) true }

/-! ## Reachability of pagination states

The operation set named by the stack-invariant claim: SetHandler as the
entry point, then initial loads, completed loads, forward and backward
paging and refreshes, in any order.  Steps on which the Go code panics
(LoadNextPage / LoadPrevPage returning none) have no successor state. -/

inductive ReachableLV : ResourceListView → Prop where
  | init (v : ResourceListView) (h : HandlerSpec) : ReachableLV (v.SetHandler h)
  | setHandler {v : ResourceListView} (h : HandlerSpec) :
      ReachableLV v → ReachableLV (v.SetHandler h)
  | load {v : ResourceListView} (filter : GoStr) :
      ReachableLV v → ReachableLV (v.LoadResources filter).1
  | loaded {v : ResourceListView} (msg : ResourcesLoadedMsg) :
      ReachableLV v → ReachableLV (v.updateResourcesLoaded msg)
  | next {v v' : ResourceListView} {req : Option ListRequest} :
      ReachableLV v → v.LoadNextPage = some (v', req) → ReachableLV v'
  | prev {v v' : ResourceListView} {req : Option ListRequest} :
      ReachableLV v → v.LoadPrevPage = some (v', req) → ReachableLV v'
  | refresh {v : ResourceListView} :
      ReachableLV v → ReachableLV v.Refresh.1

/-! ## Concrete fixtures used by the claim scenarios -/

/-- Concrete resources of the tag-filter claim scenario. -/
def resEnvProd : Resource :=
  { id := "r1".toList, arn := "arn:r1".toList, name := "r1".toList,
    rtype := "t".toList, region := "us-east-1".toList,
    tags := [("env".toList, "prod".toList)], row := ["r1".toList] }

def resEnvStaging : Resource :=
  { id := "r2".toList, arn := "arn:r2".toList, name := "r2".toList,
    rtype := "t".toList, region := "us-east-1".toList,
    tags := [("env".toList, "staging".toList)], row := ["r2".toList] }

def resEnvProdTeamX : Resource :=
  { id := "r3".toList, arn := "arn:r3".toList, name := "r3".toList,
    rtype := "t".toList, region := "us-east-1".toList,
    tags := [("env".toList, "prod".toList), ("team".toList, "x".toList)],
    row := ["r3".toList] }

/-- A page resource carrying just a name, for the pagination scenarios. -/
def pageRes (nm : GoStr) : Resource :=
  { id := nm, arn := "arn:".toList ++ nm, name := nm, rtype := "fake".toList,
    region := "us-east-1".toList, tags := [], row := [nm] }

/-- The fake paginated adapter of the round-trip claim: token order is the
empty token, then A, then B, then the empty token again. -/
def fakePagedList : GoStr → GoStr → ListOutcome := fun _ token =>
  if token = [] then .okPage [pageRes ("p1".toList)] ("A".toList)
  else if token = "A".toList then .okPage [pageRes ("p2".toList)] ("B".toList)
  else if token = "B".toList then .okPage [pageRes ("p3".toList)] []
  else .errList ("unexpected token".toList)

/-- A fake handler with no declared actions. -/
def fakePagedHandler : HandlerSpec :=
  { resourceType := "fake:pages".toList, resourceName := "Fake Pages".toList,
    shortcutKey := "fake".toList,
    columns := [⟨"Name".toList, 30, true⟩],
    actions := [], executeAction := fun _ _ => .ok }

/-- Fixtures for the pagination round-trip scenario: page 1 loaded, then one
forward page in flight, then page 2 loaded. -/
def c1Start : ResourceListView := NewResourceListView.SetHandler fakePagedHandler

def c1Page1 : ResourceListView :=
  (c1Start.LoadResources []).1.updateResourcesLoaded (runListCmd fakePagedList ⟨[], []⟩)

def c1Page2Loading : ResourceListView :=
  ((c1Page1.LoadNextPage).getD (c1Page1, none)).1

def c1Page2 : ResourceListView :=
  c1Page2Loading.updateResourcesLoaded (runListCmd fakePagedList ⟨[], "A".toList⟩)

/-- The state reached by paging back from page 2 (page counter 1, stack not
popped). -/
def c3BadState : ResourceListView :=
  ((c1Page2.LoadPrevPage).getD (c1Page2, none)).1

/-- The pagination-state invariant that actually holds in every reachable
state: a handler is installed, and either the view is on page 1 with the
token stack empty or holding just the page-1 empty token, or on page 2 with
exactly the page-1 empty token; pages beyond 2 are unreachable. -/
def PagInv (v : ResourceListView) : Prop :=
  v.handler.isSome ∧
    ((v.currentPage = 1 ∧ (v.prevTokens = [] ∨ v.prevTokens = [[]])) ∨
     (v.currentPage = 2 ∧ v.prevTokens = [[]]))

/-- Handler declaring an action on key d, used by the key-conflict scenario. -/
def c6Handler : HandlerSpec :=
  { resourceType := "c6:things".toList, resourceName := "C6 Things".toList,
    shortcutKey := "c6".toList, columns := [⟨"Name".toList, 30, true⟩],
    actions := [⟨"d".toList, "detach".toList, "Detach the thing".toList, false⟩],
    executeAction := fun _ _ => .plainErr ("boom".toList) }

def c6State : ResourceListView :=
  (NewResourceListView.SetHandler c6Handler).updateResourcesLoaded
    ⟨[pageRes ("x1".toList)], [], none⟩

/-- Handler declaring an action on key r, used by the amended key-conflict
witness. -/
def c6rHandler : HandlerSpec :=
  { resourceType := "c6:rotors".toList, resourceName := "C6 Rotors".toList,
    shortcutKey := "c6r".toList, columns := [⟨"Name".toList, 30, true⟩],
    actions := [⟨"r".toList, "rotate".toList, "Rotate the rotor".toList, false⟩],
    executeAction := fun _ _ => .ok }

def c6rState : ResourceListView :=
  (NewResourceListView.SetHandler c6rHandler).updateResourcesLoaded
    ⟨[pageRes ("x1".toList)], [], none⟩

/-- The direction flip ToggleSortDirection performs before re-sorting
(abbreviation for the record update on line 200 of table.go). -/
def Table.flipAsc (t : Table) : Table := { t with sortAscending := !t.sortAscending }

/-- Concrete table for the sort claims: three rows over one sortable column,
with a duplicate key in rows 1 and 2. -/
def c5Table : Table :=
  { columns := [⟨"Name".toList, 10, true⟩],
    rows := [["b".toList], ["a".toList], ["a".toList]],
    resources := [pageRes ("b0".toList), pageRes ("a1".toList), pageRes ("a2".toList)],
    cursor := 0, offset := 0, filter := [],
    filtered := [0, 1, 2], sortColumn := 0, sortAscending := true, focused := true }

/-! # Theorems

General lemmas first, then one theorem per claim (with witnesses and
counterexamples where the claim status needs them). -/

theorem strHasPrefix_iff (s p : GoStr) : strHasPrefix s p = true ↔ p <+: s := by
  induction p generalizing s with
  | nil => simp [strHasPrefix, nil_prefix]
  | cons d p ih =>
    cases s with
    | nil =>
      simp [strHasPrefix]
    | cons c s =>
      simp only [strHasPrefix, Bool.and_eq_true, beq_iff_eq, ih, cons_prefix_cons]
      tauto

theorem strContains_iff (s sub : GoStr) : strContains s sub = true ↔ sub <:+: s := by
  induction s with
  | nil =>
    simp only [strContains, strHasPrefix_iff]
    constructor
    · exact fun h => h.isInfix
    · intro h
      have hnil : sub = [] := eq_nil_of_infix_nil h
      subst hnil
      exact nil_prefix
  | cons c s ih =>
    simp only [strContains, Bool.or_eq_true, strHasPrefix_iff, ih]
    exact (infix_cons_iff).symm

theorem filterByTags_mem (resources : List Resource) (tags : List (GoStr × GoStr))
    (res : Resource) :
    res ∈ FilterByTags resources tags ↔ res ∈ resources ∧ MatchesAllTags res tags := by
  unfold FilterByTags MatchesAllTags
  by_cases htags : tags.isEmpty
  · have : tags = [] := isEmpty_iff.mp htags
    subst this
    simp
  · simp only [if_neg htags, mem_filter, all_eq_true, and_congr_right_iff]
    intro _
    constructor
    · intro h kv hkv
      have := h kv hkv
      cases hv : res.tags.lookup kv.1 with
      | none => rw [hv] at this; exact absurd this (by simp)
      | some resVal =>
        rw [hv] at this
        exact ⟨resVal, rfl, (strContains_iff _ _).mp this⟩
    · intro h kv hkv
      obtain ⟨resVal, hv, hsub⟩ := h kv hkv
      rw [hv]
      exact (strContains_iff _ _).mpr hsub

/-- C4 — Tag-filter conjunction: FilterByTags returns exactly the resources
matching every active pair (key present, tag value containing the lowercased
filter value as a substring), and on the concrete page of the claim,
filtering on env: pro keeps exactly the two env: prod resources while adding
team: x narrows the result to one. -/
theorem C4_tag_filter_conjunction :
    (∀ (resources : List Resource) (tags : List (GoStr × GoStr)) (res : Resource),
        res ∈ FilterByTags resources tags ↔ res ∈ resources ∧ MatchesAllTags res tags) ∧
    FilterByTags [resEnvProd, resEnvStaging, resEnvProdTeamX]
        [("env".toList, "pro".toList)] = [resEnvProd, resEnvProdTeamX] ∧
    FilterByTags [resEnvProd, resEnvStaging, resEnvProdTeamX]
        [("env".toList, "pro".toList), ("team".toList, "x".toList)] = [resEnvProdTeamX] :=
  ⟨filterByTags_mem, by decide, by decide⟩

/-- C7 — Registry re-registration: evaluating the code at the failing input.
Registering a second handler of the same resource type makes the later
handler win every lookup, but Register appends to the order slice
unconditionally, so Types and All return the type (and its handler) twice,
against the idempotence the claim states.  App.registerHandlers runs on
every awsInitializedMsg, so this duplication happens on every profile or
region switch. -/
theorem C7_register_duplicates_order :
    (Registry.Get ((NewRegistry.Register c6Handler).Register c6rHandler)
        ("c6:things".toList)).1 = some c6Handler ∧
    ((NewRegistry.Register fakePagedHandler).Register fakePagedHandler).Types
        = ["fake:pages".toList, "fake:pages".toList] ∧
    ((NewRegistry.Register fakePagedHandler).Register fakePagedHandler).All
        = [fakePagedHandler, fakePagedHandler] ∧
    (((NewRegistry.Register fakePagedHandler).Register fakePagedHandler).All).length = 2 :=
  ⟨rfl, by decide, rfl, rfl⟩

/-- C1 — Pagination round-trip: evaluating the code at the failing input.
Against the fake handler whose token order is the empty token, A, B, empty:
the initial load issues the empty token and yields page 1 with nextToken A;
the first LoadNextPage stores the page-1 token, moves to page 2 and issues
exactly token A; page 2 arrives with nextToken B; but the second
LoadNextPage reads prevTokens[1] on a one-element stack — the guard
len(prevTokens) >= currentPage-1 is off by one — and the process panics with
an index out of range, so the round-trip never reaches page 3 and the
back-paging of the claim cannot happen. -/
theorem C1_second_forward_page_panics :
    (c1Start.LoadResources []).2 = some ⟨[], []⟩ ∧
    c1Page1.currentPage = 1 ∧ c1Page1.prevTokens = [] ∧
    c1Page1.nextToken = "A".toList ∧ c1Page1.hasMore = true ∧
    (c1Page1.LoadNextPage).map (fun p => (p.1.currentPage, p.1.prevTokens, p.2))
        = some (2, [[]], some ⟨[], "A".toList⟩) ∧
    c1Page2.currentPage = 2 ∧ c1Page2.prevTokens = [[]] ∧
    c1Page2.nextToken = "B".toList ∧ c1Page2.hasMore = true ∧
    c1Page2.LoadNextPage = none :=
  ⟨rfl, by decide, by decide, by decide, by decide, by decide,
   by decide, by decide, by decide, by decide, rfl⟩

/-- C8 — Single in-flight request: evaluating the code at the failing input.
In the state where the page-2 request is still in flight (loading is set,
hasMore still true from page 1), nothing checks the loading flag: pressing N
issues a second List request (the page-1 empty token) and decrements the
page counter, and pressing n reaches the off-by-one stack read and panics.
The claim that next/prev triggers are inert while loading is false on the
code. -/
theorem C8_no_loading_guard :
    c1Page2Loading.loading = true ∧ c1Page2Loading.hasMore = true ∧
    c1Page2Loading.currentPage = 2 ∧
    ((c1Page2Loading.updateKey ("N".toList)).map fun p => (p.1.currentPage, p.1.loading, p.2))
        = some (1, true, .pageRequest (some ⟨[], []⟩)) ∧
    c1Page2Loading.updateKey ("n".toList) = none :=
  ⟨by decide, by decide, by decide, by decide, rfl⟩

theorem pagInv_setHandler (v : ResourceListView) (h : HandlerSpec) :
    PagInv (v.SetHandler h) := by
  exact ⟨rfl, Or.inl ⟨rfl, Or.inl rfl⟩⟩

theorem pagInv_load (v : ResourceListView) (f : GoStr) (hv : PagInv v) :
    PagInv (v.LoadResources f).1 := by
  obtain ⟨hsome, hpage⟩ := hv
  obtain ⟨h, hh⟩ := Option.isSome_iff_exists.mp hsome
  unfold ResourceListView.LoadResources ResourceListView.loadResourcesWithToken
  rw [if_neg (by simp [hh])]
  exact ⟨by simp [hh], hpage⟩

theorem pagInv_loaded (v : ResourceListView) (msg : ResourcesLoadedMsg) (hv : PagInv v) :
    PagInv (v.updateResourcesLoaded msg) := by
  obtain ⟨hsome, hpage⟩ := hv
  unfold ResourceListView.updateResourcesLoaded
  cases hme : msg.error with
  | some e => exact ⟨hsome, hpage⟩
  | none =>
    dsimp only
    split
    · exact ⟨hsome, hpage⟩
    · exact ⟨hsome, hpage⟩

theorem pagInv_next (v v' : ResourceListView) (req : Option ListRequest)
    (hv : PagInv v) (hstep : v.LoadNextPage = some (v', req)) : PagInv v' := by
  obtain ⟨hsome, hpage⟩ := hv
  obtain ⟨h, hh⟩ := Option.isSome_iff_exists.mp hsome
  unfold ResourceListView.LoadNextPage at hstep
  by_cases hguard : ¬v.hasMore ∨ v.nextToken = []
  · rw [if_pos hguard] at hstep
    have h2 := Option.some.inj hstep
    have h3 : v = v' := congrArg Prod.fst h2
    subst h3
    exact ⟨hsome, hpage⟩
  · rw [if_neg hguard] at hstep
    rcases hpage with ⟨hp1, -⟩ | ⟨hp2, hstack⟩
    · -- from page 1: the stack is reset to the page-1 empty token and the
      -- view moves to page 2
      simp only [hp1, ResourceListView.loadResourcesWithToken, hh] at hstep
      norm_num at hstep
      obtain ⟨h3, -⟩ := hstep
      subst h3
      exact ⟨by simp [hh], Or.inr ⟨rfl, rfl⟩⟩
    · -- from page 2 with the one-element stack the indexing panics, so the
      -- hypothesis that a successor state exists is contradictory
      simp only [ResourceListView.loadResourcesWithToken, hh] at hstep
      norm_num at hstep
      simp [hp2, hstack] at hstep

theorem pagInv_prev (v v' : ResourceListView) (req : Option ListRequest)
    (hv : PagInv v) (hstep : v.LoadPrevPage = some (v', req)) : PagInv v' := by
  obtain ⟨hsome, hpage⟩ := hv
  obtain ⟨h, hh⟩ := Option.isSome_iff_exists.mp hsome
  unfold ResourceListView.LoadPrevPage at hstep
  rcases hpage with ⟨hp1, hstack⟩ | ⟨hp2, hstack⟩
  · rw [if_pos (by simp [hp1])] at hstep
    have h2 := Option.some.inj hstep
    have h3 : v = v' := congrArg Prod.fst h2
    subst h3
    exact ⟨hsome, Or.inl ⟨hp1, hstack⟩⟩
  · simp only [hp2, hstack, ResourceListView.loadResourcesWithToken, hh] at hstep
    norm_num at hstep
    obtain ⟨h3, -⟩ := hstep
    subst h3
    exact ⟨by simp [hh], Or.inl ⟨rfl, Or.inr rfl⟩⟩

theorem pagInv_refresh (v : ResourceListView) (hv : PagInv v) : PagInv v.Refresh.1 := by
  obtain ⟨hsome, _⟩ := hv
  obtain ⟨h, hh⟩ := Option.isSome_iff_exists.mp hsome
  unfold ResourceListView.Refresh ResourceListView.LoadResources
    ResourceListView.loadResourcesWithToken
  rw [if_neg (by simp [hh])]
  rw [if_neg (by simp [hh])]
  exact ⟨by simp [hh], Or.inl ⟨rfl, Or.inl rfl⟩⟩

theorem pagInv_reachable (v : ResourceListView) (hv : ReachableLV v) : PagInv v := by
  induction hv with
  | init w h => exact pagInv_setHandler w h
  | setHandler h _ _ => exact pagInv_setHandler _ h
  | load f _ ih => exact pagInv_load _ f ih
  | loaded msg _ ih => exact pagInv_loaded _ msg ih
  | next _ hstep ih => exact pagInv_next _ _ _ ih hstep
  | prev _ hstep ih => exact pagInv_prev _ _ _ ih hstep
  | refresh _ ih => exact pagInv_refresh _ ih

/-- C3 — counterexample to the stack invariant: the state reached by
SetHandler, initial load, loaded page 1, LoadNextPage, loaded page 2,
LoadPrevPage is on page 1 yet still holds one stored token, because
LoadPrevPage never pops the stack; len(stack) = currentPage - 1 is false
there. -/
theorem C3_counterexample_stack_not_popped :
    ReachableLV c3BadState ∧ c3BadState.currentPage = 1 ∧
    c3BadState.prevTokens = [[]] ∧
    c3BadState.prevTokens.length ≠ c3BadState.currentPage - 1 := by
  refine ⟨?_, by decide, by decide, by decide⟩
  have h0 : ReachableLV c1Start := ReachableLV.init NewResourceListView fakePagedHandler
  have h1 : ReachableLV (c1Start.LoadResources []).1 := ReachableLV.load [] h0
  have h2 : ReachableLV c1Page1 :=
    ReachableLV.loaded (runListCmd fakePagedList ⟨[], []⟩) h1
  have h3 : ReachableLV c1Page2Loading :=
    ReachableLV.next h2
      (show c1Page1.LoadNextPage = some (c1Page2Loading, some ⟨[], "A".toList⟩) from rfl)
  have h4 : ReachableLV c1Page2 :=
    ReachableLV.loaded (runListCmd fakePagedList ⟨[], "A".toList⟩) h3
  exact ReachableLV.prev h4
    (show c1Page2.LoadPrevPage = some (c3BadState, some ⟨[], []⟩) from rfl)

/-- C3 — the amended stack property that the code satisfies: SetHandler and
Refresh (with a handler installed) do reset the token stack to empty with
currentPage 1, and in every state reachable by the operations of the claim
the view is on page 1 with stack [] or with just the page-1 empty token, or
on page 2 with exactly that token — so len(stack) is at most 1, the equality
len(stack) = currentPage - 1 holds until the first LoadPrevPage but is not
restored by it (the stack is never popped), and no page beyond 2 is
reachable without the process panicking. -/
theorem C3_stack_reset_and_bounded :
    (∀ (v : ResourceListView) (h : HandlerSpec),
        (v.SetHandler h).prevTokens = [] ∧ (v.SetHandler h).currentPage = 1) ∧
    (∀ v : ResourceListView, v.handler.isSome →
        v.Refresh.1.prevTokens = [] ∧ v.Refresh.1.currentPage = 1) ∧
    (∀ v : ResourceListView, ReachableLV v → PagInv v) := by
  refine ⟨fun v h => ⟨rfl, rfl⟩, fun v hsome => ?_, pagInv_reachable⟩
  obtain ⟨h, hh⟩ := Option.isSome_iff_exists.mp hsome
  unfold ResourceListView.Refresh ResourceListView.LoadResources
    ResourceListView.loadResourcesWithToken
  rw [if_neg (by simp [hh])]
  rw [if_neg (by simp [hh])]
  exact ⟨rfl, rfl⟩

theorem C3_stack_reset_witness :
    ((NewResourceListView.SetHandler fakePagedHandler).prevTokens = [] ∧
      (NewResourceListView.SetHandler fakePagedHandler).currentPage = 1) ∧
    (c1Start.Refresh.1.prevTokens = [] ∧ c1Start.Refresh.1.currentPage = 1) ∧
    PagInv c1Start :=
  ⟨C3_stack_reset_and_bounded.1 NewResourceListView fakePagedHandler,
   C3_stack_reset_and_bounded.2.1 c1Start rfl,
   C3_stack_reset_and_bounded.2.2 c1Start
     (ReachableLV.init NewResourceListView fakePagedHandler)⟩

/-- C9 — Error atomicity: a failed load only clears the loading flag and
stores the error; at the App level the error text becomes the status-line
message and everything else — resources, handler, pagination, filters, app
state, registry, breadcrumb — is exactly what it was before the result was
applied.  The embedding of both updates is a total function, so processing
the result cannot panic. -/
theorem C9_error_atomicity :
    (∀ (v : ResourceListView) (rs : List Resource) (tok e : GoStr),
        v.updateResourcesLoaded ⟨rs, tok, some e⟩
          = { v with loading := false, error := some e }) ∧
    (∀ (a : App) (rs : List Resource) (tok e : GoStr),
        (a.applyResourcesLoaded ⟨rs, tok, some e⟩).resourceList
            = { a.resourceList with loading := false, error := some e } ∧
        (a.applyResourcesLoaded ⟨rs, tok, some e⟩).footer.message
            = "Error: ".toList ++ e ∧
        (a.applyResourcesLoaded ⟨rs, tok, some e⟩).footer.messageErr = true ∧
        (a.applyResourcesLoaded ⟨rs, tok, some e⟩).state = a.state ∧
        (a.applyResourcesLoaded ⟨rs, tok, some e⟩).registry = a.registry ∧
        (a.applyResourcesLoaded ⟨rs, tok, some e⟩).breadcrumb = a.breadcrumb) :=
  ⟨fun _ _ _ _ => rfl,
   fun _ _ _ _ => ⟨rfl, rfl, rfl, rfl, rfl, rfl⟩⟩

/-- C10 — Filter asymmetry across page loads: on every successful load the
active tag filters are reapplied to the new page and the table receives that
tag-filtered page, which resets its filtered index set to all of its rows;
the stored free-text query is kept in the table but not reapplied, so it no
longer constrains the visible rows. -/
theorem C10_search_filter_not_reapplied :
    ∀ (v : ResourceListView) (rs : List Resource) (tok : GoStr),
      (v.updateResourcesLoaded ⟨rs, tok, none⟩).table.resources
          = (if v.activeTags.length > 0 then FilterByTags rs v.activeTags else rs) ∧
      (v.updateResourcesLoaded ⟨rs, tok, none⟩).filteredByTags
          = (if v.activeTags.length > 0 then FilterByTags rs v.activeTags else rs) ∧
      (v.updateResourcesLoaded ⟨rs, tok, none⟩).table.filtered
          = range (if v.activeTags.length > 0 then FilterByTags rs v.activeTags
                   else rs).length ∧
      (v.updateResourcesLoaded ⟨rs, tok, none⟩).table.filter = v.table.filter ∧
      (v.updateResourcesLoaded ⟨rs, tok, none⟩).activeTags = v.activeTags := by
  intro v rs tok
  unfold ResourceListView.updateResourcesLoaded Table.SetResources
  by_cases hat : v.activeTags.length > 0 <;>
    simp [hat]

/-- C2 — Navigation dispatch: the dispatch branch classifies an ExecuteAction
result structurally — a navigation payload is re-emitted as its own message,
a plain error becomes an ActionErrorMsg, success emits nothing; the App case
for the navigation message installs the handler built from the payload,
which resets pagination to page 1 with an empty stack, switches to the
resource-list state, issues the fresh first-page List and leaves the status
message untouched; the App case for a plain action error changes only the
status line, leaving the view (handler and pagination included) unchanged. -/
theorem C2_navigation_dispatch :
    (∀ (actionName arn cn : GoStr),
        emittedOfOutcome (.navServices arn cn) actionName
          = some (.navigateToServices arn cn)) ∧
    (∀ (actionName e : GoStr),
        emittedOfOutcome (.plainErr e) actionName = some (.actionError e actionName)) ∧
    (∀ actionName : GoStr, emittedOfOutcome .ok actionName = none) ∧
    (∀ (mk : GoStr → GoStr → GoStr → HandlerSpec) (a : App) (arn cn : GoStr),
        (App.applyNavigateToServices mk a arn cn).1.resourceList.handler
            = some (mk a.region arn cn) ∧
        (App.applyNavigateToServices mk a arn cn).1.resourceList.currentPage = 1 ∧
        (App.applyNavigateToServices mk a arn cn).1.resourceList.prevTokens = [] ∧
        (App.applyNavigateToServices mk a arn cn).1.resourceList.loading = true ∧
        (App.applyNavigateToServices mk a arn cn).1.state = AppState.resourceList ∧
        (App.applyNavigateToServices mk a arn cn).1.footer.message = a.footer.message ∧
        (App.applyNavigateToServices mk a arn cn).1.footer.messageErr
            = a.footer.messageErr ∧
        (App.applyNavigateToServices mk a arn cn).2 = some ⟨[], []⟩) ∧
    (∀ (a : App) (e : GoStr),
        (App.applyActionError a e).resourceList = a.resourceList ∧
        (App.applyActionError a e).state = a.state ∧
        (App.applyActionError a e).registry = a.registry ∧
        (App.applyActionError a e).footer.message = "Action failed: ".toList ++ e ∧
        (App.applyActionError a e).footer.messageErr = true) :=
  ⟨fun _ _ _ => rfl, fun _ _ => rfl, fun _ => rfl,
   fun _ _ _ _ => ⟨rfl, rfl, rfl, rfl, rfl, rfl, rfl, rfl⟩,
   fun _ _ => ⟨rfl, rfl, rfl, rfl, rfl⟩⟩

theorem hasActionKey_of_actionFor (v : ResourceListView) (k : GoStr) (a : GoAction)
    (ha : v.actionFor k = some a) : v.hasActionKey k = true := by
  unfold ResourceListView.actionFor at ha
  obtain ⟨h, hh, hfind⟩ := Option.bind_eq_some.mp ha
  unfold ResourceListView.hasActionKey
  rw [hh]
  simp only [Option.elim]
  have hp := List.find?_some hfind
  exact List.any_eq_true.mpr ⟨a, List.mem_of_find?_eq_some hfind, hp⟩

/-- C6 — counterexample to key-conflict precedence: a handler that declares
an action on key d never receives it.  The detail-toggle branch of Update
runs before the action dispatch and has no declared-action check (unlike the
branches for c, r and t), so pressing d with a selected resource issues the
Describe request of the detail pane instead of executing the declared
action. -/
theorem C6_counterexample_d_opens_detail :
    c6State.hasActionKey ("d".toList) = true ∧
    ((c6State.updateKey ("d".toList)).map fun p => p.2)
        = some (KeyEffect.detailRequest ("x1".toList)) ∧
    ¬(((c6State.updateKey ("d".toList)).map fun p => p.2)
        = some (.actionDispatched ("detach".toList) ("x1".toList)
            (.plainErr ("boom".toList)))) :=
  ⟨by decide, by decide, by decide⟩

/-- C6 — the amended precedence rule the code satisfies: with no overlay
active and the detail pane closed, a key declared by the active handler
invokes the handler action (and not any built-in) provided it is none of the
engine bindings that run unconditionally before the dispatch — search on /,
copy on C, detail toggle on d, and the always-available ctrl+r refresh; the
built-ins on c, r and t check the declared actions and yield, and o, O, n,
N, bracket keys and everything later in Update are only reached when no
action matched. -/
theorem C6_amended_action_precedence
    (v : ResourceListView) (key : GoStr) (h : HandlerSpec) (a : GoAction) (res : Resource)
    (hsearch : v.searchActive = false) (htf : v.tagFilterActive = false)
    (hdetail : v.showDetail = false)
    (hh : v.handler = some h) (ha : v.actionFor key = some a)
    (hres : v.table.SelectedResource = some res)
    (h1 : key ≠ "/".toList) (h2 : key ≠ "C".toList) (h3 : key ≠ "d".toList)
    (h4 : key ≠ "ctrl+r".toList) :
    v.updateKey key
      = some (v, .actionDispatched a.name res.id (h.executeAction a.name res.id)) := by
  have hcopy : ¬(key = "c".toList ∧ ¬v.searchActive = true ∧
      ¬v.hasActionKey ("c".toList) = true) := by
    rintro ⟨hk, -, hno⟩
    subst hk
    exact hno (hasActionKey_of_actionFor v _ a ha)
  have hrot : ¬(key = "r".toList ∧ ¬v.searchActive = true ∧ ¬v.tagFilterActive = true ∧
      ¬v.hasActionKey ("r".toList) = true) := by
    rintro ⟨hk, -, -, hno⟩
    subst hk
    exact hno (hasActionKey_of_actionFor v _ a ha)
  unfold ResourceListView.updateKey
  rw [if_neg (fun hc => h1 hc.1)]
  rw [if_neg hcopy]
  rw [if_neg (fun hc => h2 hc.1)]
  rw [if_neg (fun hc => h3 hc.1)]
  rw [if_neg (fun hc => absurd hc.2 (by simp [hdetail]))]
  rw [if_neg (fun hc => absurd hc.2 (by simp [hsearch]))]
  rw [if_neg (fun hc => absurd hc.2.1 (by simp [hdetail]))]
  rw [if_neg (fun hc => h4 hc.1)]
  rw [if_neg hrot]
  rw [if_pos ⟨by simp [hsearch], by simp [htf], by simp [ha]⟩]
  rw [hh, ha, hres]

theorem C6_amended_witness :
    c6rState.updateKey ("r".toList)
      = some (c6rState,
          .actionDispatched ("rotate".toList) ("x1".toList) ActionOutcome.ok) :=
  C6_amended_action_precedence c6rState ("r".toList) c6rHandler
    ⟨"r".toList, "rotate".toList, "Rotate the rotor".toList, false⟩
    (pageRes ("x1".toList)) rfl rfl rfl rfl rfl rfl
    (by decide) (by decide) (by decide) (by decide)

/-! ## Order facts about the Go string comparison -/

theorem strLt_irrefl (s : GoStr) : strLt s s = false := by
  induction s with
  | nil => rfl
  | cons c s ih => simp [strLt, ih]

theorem strLt_asymm (a b : GoStr) (h : strLt a b = true) : strLt b a = false := by
  induction a generalizing b with
  | nil =>
    cases b with
    | nil => simp [strLt] at h
    | cons d bs => rfl
  | cons c as ih =>
    cases b with
    | nil => simp [strLt] at h
    | cons d bs =>
      simp only [strLt] at h ⊢
      by_cases h1 : c < d
      · rw [if_neg (lt_asymm h1), if_pos h1]
      · by_cases h2 : d < c
        · rw [if_neg h1, if_pos h2] at h
          exact absurd h (by simp)
        · rw [if_neg h1, if_neg h2] at h
          rw [if_neg h2, if_neg h1]
          exact ih bs h

theorem strLt_trans (a b c : GoStr) (hab : strLt a b = true) (hbc : strLt b c = true) :
    strLt a c = true := by
  induction a generalizing b c with
  | nil =>
    cases c with
    | nil => cases b <;> simp [strLt] at hbc
    | cons z zs => simp [strLt]
  | cons x xs ih =>
    cases b with
    | nil => simp [strLt] at hab
    | cons y ys =>
      cases c with
      | nil => simp [strLt] at hbc
      | cons z zs =>
        simp only [strLt] at hab hbc ⊢
        by_cases hxy : x < y
        · by_cases hyz : y < z
          · rw [if_pos (lt_trans hxy hyz)]
          · by_cases hzy : z < y
            · rw [if_neg hyz, if_pos hzy] at hbc
              exact absurd hbc (by simp)
            · have hyz2 : y = z := le_antisymm (le_of_not_lt hzy) (le_of_not_lt hyz)
              rw [if_pos (hyz2 ▸ hxy)]
        · by_cases hyx : y < x
          · rw [if_neg hxy, if_pos hyx] at hab
            exact absurd hab (by simp)
          · have hxy2 : x = y := le_antisymm (le_of_not_lt hyx) (le_of_not_lt hxy)
            rw [if_neg hxy, if_neg hyx] at hab
            by_cases hyz : y < z
            · rw [if_pos (hxy2 ▸ hyz)]
            · by_cases hzy : z < y
              · rw [if_neg hyz, if_pos hzy] at hbc
                exact absurd hbc (by simp)
              · rw [if_neg hyz, if_neg hzy] at hbc
                have hyz2 : y = z := le_antisymm (le_of_not_lt hzy) (le_of_not_lt hyz)
                subst hxy2
                subst hyz2
                rw [if_neg hyx, if_neg hyx]
                exact ih ys zs hab hbc

theorem strLt_conn (a b : GoStr) (hab : strLt a b = false) (hba : strLt b a = false) :
    a = b := by
  induction a generalizing b with
  | nil =>
    cases b with
    | nil => rfl
    | cons d bs => simp [strLt] at hab
  | cons c as ih =>
    cases b with
    | nil => simp [strLt] at hba
    | cons d bs =>
      simp only [strLt] at hab hba
      by_cases h1 : c < d
      · rw [if_pos h1] at hab
        exact absurd hab (by simp)
      · by_cases h2 : d < c
        · rw [if_pos h2] at hba
          exact absurd hba (by simp)
        · rw [if_neg h1, if_neg h2] at hab
          rw [if_neg h2, if_neg h1] at hba
          have hrest := ih bs hab hba
          have hcd : c = d := le_antisymm (le_of_not_lt h2) (le_of_not_lt h1)
          rw [hcd, hrest]

theorem strLt_negtrans (a b c : GoStr) (h1 : strLt b a = false) (h2 : strLt c b = false) :
    strLt c a = false := by
  by_cases hca : strLt c a = true
  · by_cases hab : strLt a b = true
    · exact absurd (strLt_trans c a b hca hab) (by simp [h2])
    · have hab2 : strLt a b = false := by revert hab; cases strLt a b <;> simp
      have heq : a = b := strLt_conn a b hab2 h1
      rw [heq] at hca
      exact absurd hca (by simp [h2])
  · revert hca; cases strLt c a <;> simp

/-! ## Properties of the bubble sort of Table.Sort

The lemmas are stated for an abstract comparison on the index type: the
table-level facts are obtained by instantiating at the key comparison of
the sorted column and transporting along gosort_congr. -/

theorem gopass_perm {less : Nat → Nat → Bool} (n : Nat) (l : List Nat) :
    gopass less n l ~ l := by
  induction n generalizing l with
  | zero => exact Perm.refl l
  | succ m ih =>
    rcases l with _ | ⟨x, _ | ⟨y, rest⟩⟩
    · exact Perm.refl _
    · exact Perm.refl _
    · simp only [gopass]
      split
      · exact ((ih (x :: rest)).cons y).trans (Perm.swap x y rest)
      · exact (ih (y :: rest)).cons x

theorem gosortAux_perm {less : Nat → Nat → Bool} (b : Nat) (l : List Nat) :
    gosortAux less b l ~ l := by
  induction b generalizing l with
  | zero => exact Perm.refl l
  | succ m ih => exact (ih _).trans (gopass_perm (m + 1) l)

theorem gosort_perm {less : Nat → Nat → Bool} (l : List Nat) : gosort less l ~ l :=
  gosortAux_perm _ l

theorem gopass_pair {less : Nat → Nat → Bool} {a b : Nat} (n : Nat) (l : List Nat)
    (hab : [a, b] <+ l) (hno : less b a = false) : [a, b] <+ gopass less n l := by
  induction n generalizing l with
  | zero => exact hab
  | succ m ih =>
    rcases l with _ | ⟨x, _ | ⟨y, rest⟩⟩
    · exact hab
    · exact hab
    · simp only [gopass]
      split
      case isTrue hyx =>
        cases hab with
        | cons _ h1 =>
          cases h1 with
          | cons _ h2 => exact (ih (x :: rest) (h2.cons x)).cons y
          | cons₂ _ h2 =>
            have hb : b ∈ gopass less m (x :: rest) :=
              (gopass_perm m (x :: rest)).mem_iff.mpr
                (mem_cons_of_mem x (singleton_sublist.mp h2))
            exact (singleton_sublist.mpr hb).cons₂ _
        | cons₂ _ h1 =>
          cases h1 with
          | cons _ h2 => exact (ih (a :: rest) ((h2.cons₂ a))).cons y
          | cons₂ _ h2 => exact absurd hyx (by simp [hno])
      case isFalse hyx =>
        cases hab with
        | cons _ h1 => exact (ih (y :: rest) h1).cons x
        | cons₂ _ h1 =>
          have hb : b ∈ gopass less m (y :: rest) :=
            (gopass_perm m (y :: rest)).mem_iff.mpr (singleton_sublist.mp h1)
          exact (singleton_sublist.mpr hb).cons₂ _

theorem gosortAux_pair {less : Nat → Nat → Bool} {a b : Nat} (bnd : Nat) (l : List Nat)
    (hab : [a, b] <+ l) (hno : less b a = false) : [a, b] <+ gosortAux less bnd l := by
  induction bnd generalizing l with
  | zero => exact hab
  | succ m ih => exact ih _ (gopass_pair (m + 1) l hab hno)

theorem gosort_pair {less : Nat → Nat → Bool} {a b : Nat} (l : List Nat)
    (hab : [a, b] <+ l) (hno : less b a = false) : [a, b] <+ gosort less l :=
  gosortAux_pair _ l hab hno

theorem gopass_split {less : Nat → Nat → Bool}
    (H1 : ∀ a b, less a b = true → less b a = false)
    (H2 : ∀ a b c, less b a = false → less c b = false → less c a = false) :
    ∀ (b : Nat) (l₁ l₂ : List Nat), l₁.length = b + 1 →
      ∃ f last, gopass less b (l₁ ++ l₂) = f ++ last :: l₂ ∧ f.length = b ∧
        f ++ [last] ~ l₁ ∧ ∀ x ∈ f, less last x = false := by
  intro b
  induction b with
  | zero =>
    intro l₁ l₂ hlen
    rcases l₁ with _ | ⟨e, l₁t⟩
    · simp at hlen
    · have h0 : l₁t = [] := by simpa using hlen
      subst h0
      exact ⟨[], e, rfl, rfl, Perm.refl _, by simp⟩
  | succ b ih =>
    intro l₁ l₂ hlen
    rcases l₁ with _ | ⟨x, _ | ⟨y, l₁t⟩⟩
    · simp at hlen
    · simp at hlen
    · have hlen2 : (x :: l₁t).length = b + 1 := by simpa using hlen
      simp only [cons_append, List.append_eq, gopass]
      split
      case isTrue hyx =>
        obtain ⟨f, last, heq, hflen, hperm, hmax⟩ := ih (x :: l₁t) l₂ hlen2
        rw [cons_append] at heq
        refine ⟨y :: f, last, ?_, by simpa using hflen, ?_, ?_⟩
        · rw [heq]
          rfl
        · calc (y :: f) ++ [last] = y :: (f ++ [last]) := rfl
            _ ~ y :: (x :: l₁t) := hperm.cons y
            _ ~ x :: y :: l₁t := Perm.swap x y l₁t
        · intro z hz
          rcases mem_cons.mp hz with rfl | hzf
          · -- z = y; x is either in f or equals last
            have hxmem : x ∈ f ++ [last] := hperm.mem_iff.mpr (mem_cons_self x l₁t)
            rcases mem_append.mp hxmem with hxf | hxl
            · exact H2 z x last (H1 z x hyx) (hmax x hxf)
            · have hxlast : x = last := by simpa using hxl
              rw [← hxlast]
              exact H1 z x hyx
          · exact hmax z hzf
      case isFalse hyx =>
        obtain ⟨f, last, heq, hflen, hperm, hmax⟩ := ih (y :: l₁t) l₂ hlen2
        rw [cons_append] at heq
        refine ⟨x :: f, last, ?_, by simpa using hflen, ?_, ?_⟩
        · rw [heq]
          rfl
        · calc (x :: f) ++ [last] = x :: (f ++ [last]) := rfl
            _ ~ x :: (y :: l₁t) := hperm.cons x
        · intro z hz
          rcases mem_cons.mp hz with rfl | hzf
          · have hymem : y ∈ f ++ [last] := hperm.mem_iff.mpr (mem_cons_self y l₁t)
            have hyx2 : less y z = false := by
              revert hyx
              cases less y z <;> simp
            rcases mem_append.mp hymem with hyf | hyl
            · exact H2 z y last hyx2 (hmax y hyf)
            · have hylast : y = last := by simpa using hyl
              rw [← hylast]
              exact hyx2
          · exact hmax z hzf

theorem gosortAux_sorted {less : Nat → Nat → Bool}
    (H1 : ∀ a b, less a b = true → less b a = false)
    (H2 : ∀ a b c, less b a = false → less c b = false → less c a = false) :
    ∀ (b : Nat) (l₁ l₂ : List Nat), l₁.length = b + 1 →
      Pairwise (fun u v => less v u = false) l₂ →
      (∀ x ∈ l₁, ∀ y ∈ l₂, less y x = false) →
      Pairwise (fun u v => less v u = false) (gosortAux less b (l₁ ++ l₂)) := by
  intro b
  induction b with
  | zero =>
    intro l₁ l₂ hlen hl₂ hcross
    rcases l₁ with _ | ⟨e, l₁t⟩
    · simp at hlen
    · have h0 : l₁t = [] := by simpa using hlen
      subst h0
      exact pairwise_cons.mpr ⟨fun y hy => hcross e (by simp) y hy, hl₂⟩
  | succ b ih =>
    intro l₁ l₂ hlen hl₂ hcross
    obtain ⟨f, last, heq, hflen, hperm, hmax⟩ := gopass_split H1 H2 (b + 1) l₁ l₂ hlen
    show Pairwise _ (gosortAux less b (gopass less (b + 1) (l₁ ++ l₂)))
    rw [heq]
    have hlast : last ∈ l₁ := hperm.subset (by simp)
    have happ : f ++ last :: l₂ = f ++ ([last] ++ l₂) := rfl
    apply ih f (last :: l₂) hflen
    · refine pairwise_cons.mpr ⟨fun y hy => hcross last hlast y hy, hl₂⟩
    · intro x hx y hy
      have hxl₁ : x ∈ l₁ := hperm.subset (mem_append.mpr (Or.inl hx))
      rcases mem_cons.mp hy with rfl | hy2
      · exact hmax x hx
      · exact hcross x hxl₁ y hy2

theorem gosort_sorted {less : Nat → Nat → Bool}
    (H1 : ∀ a b, less a b = true → less b a = false)
    (H2 : ∀ a b c, less b a = false → less c b = false → less c a = false)
    (l : List Nat) : Pairwise (fun u v => less v u = false) (gosort less l) := by
  rcases l with _ | ⟨x, xs⟩
  · exact Pairwise.nil
  · have h := gosortAux_sorted H1 H2 ((x :: xs).length - 1) (x :: xs) []
      (by simp) Pairwise.nil (by simp)
    simpa [gosort] using h

theorem pair_sublist_antisymm {a b : Nat} :
    ∀ (l : List Nat), l.Nodup → [a, b] <+ l → [b, a] <+ l → a = b := by
  intro l
  induction l with
  | nil =>
    intro _ h _
    simp at h
  | cons x xs ih =>
    intro hnd h₁ h₂
    cases h₁ with
    | cons _ h₁t =>
      cases h₂ with
      | cons _ h₂t => exact ih (nodup_cons.mp hnd).2 h₁t h₂t
      | cons₂ _ h₂t =>
        -- the head equals b, yet [a,b] <+ xs puts b into xs: contradiction
        have hbmem : b ∈ xs := h₁t.subset (by simp)
        exact absurd hbmem (nodup_cons.mp hnd).1
    | cons₂ _ h₁t =>
      cases h₂ with
      | cons _ h₂t =>
        have hamem : a ∈ xs := h₂t.subset (by simp)
        exact absurd hamem (nodup_cons.mp hnd).1
      | cons₂ _ h₂t => rfl

theorem pair_sublist_range {a b n : Nat} (hab : a < b) (hbn : b < n) :
    [a, b] <+ range n := by
  have h1 : [a] ++ [b] <+ range b ++ [b] :=
    Sublist.append (singleton_sublist.mpr (mem_range.mpr hab)) (Sublist.refl [b])
  have h3 : [a, b] <+ range (b + 1) := by
    rw [range_succ]
    exact h1
  exact h3.trans (range_sublist.mpr hbn)

theorem gosort_range_lex {less : Nat → Nat → Bool}
    (H1 : ∀ a b, less a b = true → less b a = false)
    (H2 : ∀ a b c, less b a = false → less c b = false → less c a = false)
    (n : Nat) :
    Pairwise (fun u v => less u v = true ∨
        (less u v = false ∧ less v u = false ∧ u ≤ v))
      (gosort less (range n)) := by
  rw [pairwise_iff_forall_sublist]
  intro a b hsub
  have hwle : less b a = false :=
    pairwise_iff_forall_sublist.mp (gosort_sorted H1 H2 (range n)) hsub
  by_cases hab : less a b = true
  · exact Or.inl hab
  · have hab2 : less a b = false := by revert hab; cases less a b <;> simp
    refine Or.inr ⟨hab2, hwle, ?_⟩
    by_contra hba
    push_neg at hba
    have hnodup : (gosort less (range n)).Nodup :=
      (gosort_perm (range n)).nodup_iff.mpr (nodup_range n)
    have ha_n : a < n :=
      mem_range.mp ((gosort_perm (range n)).subset (hsub.subset (by simp)))
    have hpair : [b, a] <+ range n := pair_sublist_range hba ha_n
    have hout : [b, a] <+ gosort less (range n) := gosort_pair _ hpair hab2
    have heq := pair_sublist_antisymm _ hnodup hsub hout
    omega

theorem gopass_congr {less1 less2 : Nat → Nat → Bool} :
    ∀ (n : Nat) (l : List Nat), (∀ x ∈ l, ∀ y ∈ l, less1 x y = less2 x y) →
      gopass less1 n l = gopass less2 n l := by
  intro n
  induction n with
  | zero => intro l _; rfl
  | succ m ih =>
    intro l hcong
    rcases l with _ | ⟨x, _ | ⟨y, rest⟩⟩
    · rfl
    · rfl
    · have hsubx : ∀ u ∈ x :: rest, u ∈ x :: y :: rest := by
        intro u hu
        rcases mem_cons.mp hu with rfl | h
        · exact mem_cons_self _ _
        · exact mem_cons_of_mem _ (mem_cons_of_mem _ h)
      have hsuby : ∀ u ∈ y :: rest, u ∈ x :: y :: rest := by
        intro u hu
        rcases mem_cons.mp hu with rfl | h
        · exact mem_cons_of_mem _ (mem_cons_self _ _)
        · exact mem_cons_of_mem _ (mem_cons_of_mem _ h)
      simp only [gopass]
      rw [hcong y (hsuby y (mem_cons_self _ _)) x (hsubx x (mem_cons_self _ _))]
      split
      · rw [ih (x :: rest) fun u hu v hv => hcong u (hsubx u hu) v (hsubx v hv)]
      · rw [ih (y :: rest) fun u hu v hv => hcong u (hsuby u hu) v (hsuby v hv)]

theorem gosortAux_congr {less1 less2 : Nat → Nat → Bool} :
    ∀ (b : Nat) (l : List Nat), (∀ x ∈ l, ∀ y ∈ l, less1 x y = less2 x y) →
      gosortAux less1 b l = gosortAux less2 b l := by
  intro b
  induction b with
  | zero => intro l _; rfl
  | succ m ih =>
    intro l hcong
    show gosortAux less1 m (gopass less1 (m + 1) l) = gosortAux less2 m (gopass less2 (m + 1) l)
    rw [gopass_congr (m + 1) l hcong]
    exact ih _ fun u hu v hv =>
      hcong u ((gopass_perm (m + 1) l).subset hu) v ((gopass_perm (m + 1) l).subset hv)

theorem gosort_congr {less1 less2 : Nat → Nat → Bool} (l : List Nat)
    (hcong : ∀ x ∈ l, ∀ y ∈ l, less1 x y = less2 x y) :
    gosort less1 l = gosort less2 l :=
  gosortAux_congr (l.length - 1) l hcong

theorem map_getD_range {α : Type} (l : List α) (d : α) (n : Nat) (hlen : l.length = n) :
    (range n).map (fun i => l.getD i d) = l := by
  apply List.ext_getElem (by simp [hlen])
  intro i h1 h2
  simp only [getElem_map, getElem_range]
  exact List.getD_eq_getElem l d h2

theorem getD_map_of_lt {α β : Type} (g : α → β) (l : List α) (p : Nat)
    (hp : p < l.length) (d : β) (d0 : α) : (l.map g).getD p d = g (l.getD p d0) := by
  rw [List.getD_eq_getElem _ _ (by simpa using hp), List.getD_eq_getElem _ _ hp,
    List.getElem_map]

theorem sublist_pair_map {f : Nat → Nat} {x y : Nat} :
    ∀ (l : List Nat), [x, y] <+ l.map f → ∃ a b, [a, b] <+ l ∧ f a = x ∧ f b = y := by
  intro l
  induction l with
  | nil => intro h; simp at h
  | cons c cs ih =>
    intro h
    cases h with
    | cons _ h1 =>
      obtain ⟨a, b, hab, hfa, hfb⟩ := ih h1
      exact ⟨a, b, hab.cons c, hfa, hfb⟩
    | cons₂ _ h1 =>
      have hy : y ∈ cs.map f := h1.subset (by simp)
      obtain ⟨b, hb, hfb⟩ := mem_map.mp hy
      exact ⟨c, b, (singleton_sublist.mpr hb).cons₂ c, rfl, hfb⟩

/-- Core of the toggle-twice argument, direction-generic: for a key sequence
k that is weakly sorted under an asymmetric, weakly transitive, connected
comparison, the stable descending index sort s2 followed by the stable
ascending index sort s3 of the reordered keys composes to the identity
permutation. -/
theorem toggle_core {lt : GoStr → GoStr → Bool}
    (ltAsymm : ∀ a b, lt a b = true → lt b a = false)
    (ltNegtrans : ∀ a b c, lt b a = false → lt c b = false → lt c a = false)
    (k : Nat → GoStr) (n : Nat)
    (hsorted : ∀ a b, a < b → b < n → lt (k b) (k a) = false) :
    (gosort (fun i j => lt (k ((gosort (fun i j => lt (k j) (k i)) (range n)).getD i 0))
        (k ((gosort (fun i j => lt (k j) (k i)) (range n)).getD j 0))) (range n)).map
      (fun p => (gosort (fun i j => lt (k j) (k i)) (range n)).getD p 0) = range n := by
  set dless : Nat → Nat → Bool := fun i j => lt (k j) (k i) with hdless
  set s2 : List Nat := gosort dless (range n) with hs2
  set k2 : Nat → GoStr := fun p => k (s2.getD p 0) with hk2
  set aless : Nat → Nat → Bool := fun i j => lt (k2 i) (k2 j) with haless
  set s3 : List Nat := gosort aless (range n) with hs3
  have dH1 : ∀ a b, dless a b = true → dless b a = false := fun a b h => ltAsymm _ _ h
  have dH2 : ∀ a b c, dless b a = false → dless c b = false → dless c a = false :=
    fun a b c h1 h2 => ltNegtrans (k c) (k b) (k a) h2 h1
  have aH1 : ∀ a b, aless a b = true → aless b a = false := fun a b h => ltAsymm _ _ h
  have aH2 : ∀ a b c, aless b a = false → aless c b = false → aless c a = false :=
    fun a b c h1 h2 => ltNegtrans (k2 a) (k2 b) (k2 c) h1 h2
  have hs2perm : s2 ~ range n := gosort_perm _
  have hs2len : s2.length = n := hs2perm.length_eq.trans (length_range n)
  have hs3perm : s3 ~ range n := gosort_perm _
  have hs2lex := gosort_range_lex dH1 dH2 n
  have hs3lex := gosort_range_lex aH1 aH2 n
  -- the composed list is a permutation of range n
  have hMperm : s3.map (fun p => s2.getD p 0) ~ range n := by
    calc s3.map (fun p => s2.getD p 0)
        ~ (range n).map (fun p => s2.getD p 0) := hs3perm.map _
      _ = s2 := map_getD_range s2 0 n hs2len
      _ ~ range n := hs2perm
  -- the lexicographic target relation
  set RA : Nat → Nat → Prop := fun x y => lt (k x) (k y) = true ∨
      (lt (k x) (k y) = false ∧ lt (k y) (k x) = false ∧ x ≤ y) with hRA
  have hrange : Pairwise RA (range n) := by
    rw [pairwise_iff_forall_sublist]
    intro x y hsub
    have hxy : x < y := pairwise_iff_forall_sublist.mp (pairwise_lt_range n) hsub
    have hyn : y < n := mem_range.mp (hsub.subset (by simp))
    by_cases hk : lt (k x) (k y) = true
    · exact Or.inl hk
    · have hk2f : lt (k x) (k y) = false := by revert hk; cases lt (k x) (k y) <;> simp
      exact Or.inr ⟨hk2f, hsorted x y hxy hyn, le_of_lt hxy⟩
  have hgetD : ∀ p (hp : p < n), s2.getD p 0 = s2.get ⟨p, by rw [hs2len]; exact hp⟩ := by
    intro p hp
    rw [List.getD_eq_getElem _ _ (by rw [hs2len]; exact hp)]
    simp
  have hM : Pairwise RA (s3.map (fun p => s2.getD p 0)) := by
    rw [pairwise_iff_forall_sublist]
    intro x y hsub
    obtain ⟨a, b, hab, hfa, hfb⟩ := sublist_pair_map _ hsub
    have hR3 := pairwise_iff_forall_sublist.mp hs3lex hab
    have ha_n : a < n := mem_range.mp (hs3perm.subset (hab.subset (by simp)))
    have hb_n : b < n := mem_range.mp (hs3perm.subset (hab.subset (by simp)))
    rcases hR3 with h | ⟨h1, h2, h3⟩
    · -- strict key inequality transfers directly
      left
      rw [← hfa, ← hfb]
      exact h
    · -- tied keys: use the descending-sort positions to order the images
      have hnodup3 : s3.Nodup := hs3perm.nodup_iff.mpr (nodup_range n)
      have hne : a ≠ b := pairwise_iff_forall_sublist.mp hnodup3 hab
      have hlt : a < b := lt_of_le_of_ne h3 hne
      have hR2 := pairwise_iff_get.mp hs2lex ⟨a, by rw [hs2len]; exact ha_n⟩
        ⟨b, by rw [hs2len]; exact hb_n⟩ hlt
      rw [← hgetD a ha_n, ← hgetD b hb_n] at hR2
      rcases hR2 with h' | ⟨-, -, hle⟩
      · -- dless (s2[a]) (s2[b]) = lt (k (s2[b])) (k (s2[a])) contradicts the tie
        have h2d : dless (s2.getD a 0) (s2.getD b 0) = false := h2
        rw [h2d] at h'
        exact Bool.noConfusion h'
      · right
        refine ⟨?_, ?_, ?_⟩
        · rw [← hfa, ← hfb]; exact h1
        · rw [← hfa, ← hfb]; exact h2
        · rw [← hfa, ← hfb]; exact hle
  haveI : IsAntisymm Nat RA := by
    constructor
    intro x y hxy hyx
    rcases hxy with h | ⟨h1, h2, h3⟩ <;> rcases hyx with h' | ⟨h1', h2', h3'⟩
    · exact absurd h' (by simp [ltAsymm _ _ h])
    · exact absurd h (by simp [h2'])
    · exact absurd h' (by simp [h2])
    · omega
  exact List.eq_of_perm_of_sorted hMperm hM hrange

/-! ## Table-level consequences -/

theorem lessFn_key (t : Table)
    (hcell : ∀ i, i < t.rows.length → t.sortColumn.toNat < (t.rows.getD i []).length)
    (i j : Nat) (hi : i < t.rows.length) (hj : j < t.rows.length) :
    t.lessFn i j = if t.sortAscending then strLt (t.keyOf i) (t.keyOf j)
                   else strLt (t.keyOf j) (t.keyOf i) := by
  have hci := hcell i hi
  have hcj := hcell j hj
  unfold Table.lessFn Table.keyOf
  rw [if_neg (by push_neg; omega)]
  rw [if_neg (by push_neg; constructor <;> omega)]

theorem sortIndices_eq_keysort (t : Table)
    (hlen : t.rows.length = t.resources.length)
    (hcell : ∀ i, i < t.rows.length → t.sortColumn.toNat < (t.rows.getD i []).length) :
    t.sortIndices = gosort
      (fun i j => if t.sortAscending then strLt (t.keyOf i) (t.keyOf j)
                  else strLt (t.keyOf j) (t.keyOf i))
      (range t.resources.length) := by
  unfold Table.sortIndices
  apply gosort_congr
  intro i hi j hj
  exact lessFn_key t hcell i j (by rw [hlen]; exact mem_range.mp hi)
    (by rw [hlen]; exact mem_range.mp hj)

theorem sort_fields (t : Table)
    (hguard : ¬(t.sortColumn = -1 ∨ t.sortColumn ≥ (t.columns.length : Int) ∨
        t.resources.length = 0)) :
    (t.Sort).rows = t.sortIndices.map (fun i => t.rows.getD i []) ∧
    (t.Sort).resources = t.sortIndices.map (fun i => t.resources.getD i emptyResource) ∧
    (t.Sort).columns = t.columns ∧ (t.Sort).sortColumn = t.sortColumn ∧
    (t.Sort).sortAscending = t.sortAscending := by
  unfold Table.Sort
  rw [if_neg hguard]
  exact ⟨rfl, rfl, rfl, rfl, rfl⟩

theorem sortIndices_stable (t : Table)
    (hlen : t.rows.length = t.resources.length)
    (hcell : ∀ i, i < t.rows.length → t.sortColumn.toNat < (t.rows.getD i []).length)
    {p q : Nat} (hpq : p < q) (hq : q < t.resources.length)
    (hkey : t.keyOf p = t.keyOf q) : [p, q] <+ t.sortIndices := by
  apply gosort_pair
  · exact pair_sublist_range hpq hq
  · rw [lessFn_key t hcell q p (by rw [hlen]; exact hq)
      (by rw [hlen]; exact lt_trans hpq hq), hkey]
    split <;> exact strLt_irrefl _

theorem sortIndices_perm (t : Table) : t.sortIndices ~ range t.resources.length :=
  gosort_perm _

theorem sortIndices_length (t : Table) : t.sortIndices.length = t.resources.length :=
  (sortIndices_perm t).length_eq.trans (length_range _)

theorem sortIndices_getD_lt (t : Table) (p : Nat) (hp : p < t.resources.length) :
    t.sortIndices.getD p 0 < t.resources.length := by
  have hmem : t.sortIndices.getD p 0 ∈ t.sortIndices := by
    rw [List.getD_eq_getElem _ _ (by rw [sortIndices_length]; exact hp)]
    exact List.getElem_mem _
  exact mem_range.mp ((sortIndices_perm t).subset hmem)

theorem sort_rows_length (t : Table)
    (hguard : ¬(t.sortColumn = -1 ∨ t.sortColumn ≥ (t.columns.length : Int) ∨
        t.resources.length = 0)) :
    (t.Sort).rows.length = t.resources.length ∧
    (t.Sort).resources.length = t.resources.length := by
  obtain ⟨hr, hres, -, -, -⟩ := sort_fields t hguard
  rw [hr, hres]
  simp [sortIndices_length]

theorem sort_keyOf (t : Table)
    (hguard : ¬(t.sortColumn = -1 ∨ t.sortColumn ≥ (t.columns.length : Int) ∨
        t.resources.length = 0))
    (p : Nat) (hp : p < t.resources.length) :
    (t.Sort).keyOf p = t.keyOf (t.sortIndices.getD p 0) := by
  obtain ⟨hr, -, -, hsc, -⟩ := sort_fields t hguard
  unfold Table.keyOf
  rw [hr, hsc, getD_map_of_lt _ _ p (by rw [sortIndices_length]; exact hp) [] 0]

theorem sort_hcell (t : Table)
    (hguard : ¬(t.sortColumn = -1 ∨ t.sortColumn ≥ (t.columns.length : Int) ∨
        t.resources.length = 0))
    (hlen : t.rows.length = t.resources.length)
    (hcell : ∀ i, i < t.rows.length → t.sortColumn.toNat < (t.rows.getD i []).length) :
    ∀ p, p < (t.Sort).rows.length →
      (t.Sort).sortColumn.toNat < ((t.Sort).rows.getD p []).length := by
  obtain ⟨hr, -, -, hsc, -⟩ := sort_fields t hguard
  intro p hp
  rw [hr] at hp
  simp only [length_map, sortIndices_length] at hp
  rw [hr, hsc, getD_map_of_lt _ _ p (by rw [sortIndices_length]; exact hp) [] 0]
  exact hcell _ (by rw [hlen]; exact sortIndices_getD_lt t p hp)

theorem sort_sorted_keys (t : Table)
    (hguard : ¬(t.sortColumn = -1 ∨ t.sortColumn ≥ (t.columns.length : Int) ∨
        t.resources.length = 0))
    (hlen : t.rows.length = t.resources.length)
    (hcell : ∀ i, i < t.rows.length → t.sortColumn.toNat < (t.rows.getD i []).length) :
    ∀ a b, a < b → b < t.resources.length →
      (if t.sortAscending then strLt ((t.Sort).keyOf b) ((t.Sort).keyOf a)
       else strLt ((t.Sort).keyOf a) ((t.Sort).keyOf b)) = false := by
  intro a b hab hbn
  have han : a < t.resources.length := lt_trans hab hbn
  have A1 : ∀ x y, (if t.sortAscending then strLt (t.keyOf x) (t.keyOf y)
      else strLt (t.keyOf y) (t.keyOf x)) = true →
      (if t.sortAscending then strLt (t.keyOf y) (t.keyOf x)
       else strLt (t.keyOf x) (t.keyOf y)) = false := by
    intro x y h
    by_cases hd : t.sortAscending <;> simp only [hd, if_true, if_false] at h ⊢ <;>
      exact strLt_asymm _ _ h
  have A2 : ∀ x y z, (if t.sortAscending then strLt (t.keyOf y) (t.keyOf x)
      else strLt (t.keyOf x) (t.keyOf y)) = false →
      (if t.sortAscending then strLt (t.keyOf z) (t.keyOf y)
       else strLt (t.keyOf y) (t.keyOf z)) = false →
      (if t.sortAscending then strLt (t.keyOf z) (t.keyOf x)
       else strLt (t.keyOf x) (t.keyOf z)) = false := by
    intro x y z h1 h2
    by_cases hd : t.sortAscending <;> simp only [hd, if_true, if_false] at h1 h2 ⊢
    · exact strLt_negtrans _ _ _ h1 h2
    · exact strLt_negtrans _ _ _ h2 h1
  have hsorted := gosort_sorted A1 A2 (range t.resources.length)
  rw [← sortIndices_eq_keysort t hlen hcell] at hsorted
  have hσlen := sortIndices_length t
  have hpw := pairwise_iff_get.mp hsorted ⟨a, by rw [hσlen]; exact han⟩
    ⟨b, by rw [hσlen]; exact hbn⟩ hab
  have hgd : ∀ p (hp : p < t.resources.length),
      t.sortIndices.getD p 0 = t.sortIndices.get ⟨p, by rw [hσlen]; exact hp⟩ := by
    intro p hp
    rw [List.getD_eq_getElem _ _ (by rw [hσlen]; exact hp)]
    simp
  rw [← hgd a han, ← hgd b hbn] at hpw
  rw [sort_keyOf t hguard a han, sort_keyOf t hguard b hbn]
  exact hpw

/-! ## The toggle-twice composition at the table level -/

theorem flipAsc_fields (u : Table) : u.flipAsc.rows = u.rows ∧
    u.flipAsc.resources = u.resources ∧ u.flipAsc.columns = u.columns ∧
    u.flipAsc.sortColumn = u.sortColumn ∧ u.flipAsc.sortAscending = !u.sortAscending :=
  ⟨rfl, rfl, rfl, rfl, rfl⟩

theorem toggle_eq_sort_flip (u : Table) (h : ¬u.sortColumn = -1) :
    u.ToggleSortDirection = u.flipAsc.Sort := by
  unfold Table.ToggleSortDirection
  rw [if_neg h]
  rfl

theorem flipAsc_guard (u : Table)
    (h : ¬(u.sortColumn = -1 ∨ u.sortColumn ≥ (u.columns.length : Int) ∨
        u.resources.length = 0)) :
    ¬(u.flipAsc.sortColumn = -1 ∨
      u.flipAsc.sortColumn ≥ ((u.flipAsc.columns.length : Int)) ∨
      u.flipAsc.resources.length = 0) := h

theorem flipAsc_hlen (u : Table) (h : u.rows.length = u.resources.length) :
    u.flipAsc.rows.length = u.flipAsc.resources.length := h

theorem flipAsc_hcell (u : Table)
    (h : ∀ i, i < u.rows.length → u.sortColumn.toNat < (u.rows.getD i []).length) :
    ∀ i, i < u.flipAsc.rows.length →
      u.flipAsc.sortColumn.toNat < (u.flipAsc.rows.getD i []).length := h

theorem flipAsc_keyOf (u : Table) (i : Nat) : u.flipAsc.keyOf i = u.keyOf i := rfl

/-- The index slice the flipped table sorts with: the same keys under the
reversed direction. -/
theorem flipAsc_sortIndices (u : Table)
    (hlen : u.rows.length = u.resources.length)
    (hcell : ∀ i, i < u.rows.length → u.sortColumn.toNat < (u.rows.getD i []).length) :
    u.flipAsc.sortIndices = gosort
      (fun i j => if u.sortAscending then strLt (u.keyOf j) (u.keyOf i)
                  else strLt (u.keyOf i) (u.keyOf j))
      (range u.resources.length) := by
  have h0 : u.flipAsc.sortIndices = gosort
      (fun i j => if !u.sortAscending then strLt (u.keyOf i) (u.keyOf j)
                  else strLt (u.keyOf j) (u.keyOf i))
      (range u.resources.length) :=
    sortIndices_eq_keysort u.flipAsc (flipAsc_hlen u hlen) (flipAsc_hcell u hcell)
  rw [h0]
  apply gosort_congr
  intro i _ j _
  cases hb : u.sortAscending <;> simp [hb]

/-- From any sorted state with a valid non-empty page, toggling the sort
direction twice restores the exact row and resource order. -/
theorem sort_toggle_twice (t : Table)
    (hc0 : 0 ≤ t.sortColumn) (hc1 : t.sortColumn < (t.columns.length : Int))
    (hlen : t.rows.length = t.resources.length)
    (hcell : ∀ i, i < t.rows.length → t.sortColumn.toNat < (t.rows.getD i []).length)
    (hn : t.resources.length ≠ 0) :
    (((t.Sort).ToggleSortDirection).ToggleSortDirection).rows = (t.Sort).rows ∧
    (((t.Sort).ToggleSortDirection).ToggleSortDirection).resources = (t.Sort).resources := by
  have hguard : ¬(t.sortColumn = -1 ∨ t.sortColumn ≥ (t.columns.length : Int) ∨
      t.resources.length = 0) := by
    push_neg
    exact ⟨by omega, by omega, hn⟩
  obtain ⟨hr, hres, hcols, hsc, hasc⟩ := sort_fields t hguard
  obtain ⟨hslenr, hslenres⟩ := sort_rows_length t hguard
  have hs_hcell := sort_hcell t hguard hlen hcell
  have hs_hlen : (t.Sort).rows.length = (t.Sort).resources.length := by
    rw [hslenr, hslenres]
  -- the direction-generic comparison and its order properties
  have A1 : ∀ a b : GoStr, (if t.sortAscending then strLt a b else strLt b a) = true →
      (if t.sortAscending then strLt b a else strLt a b) = false := by
    intro a b h
    by_cases hd : t.sortAscending <;> simp only [hd, if_true, if_false] at h ⊢ <;>
      exact strLt_asymm _ _ h
  have A2 : ∀ a b c : GoStr,
      (if t.sortAscending then strLt b a else strLt a b) = false →
      (if t.sortAscending then strLt c b else strLt b c) = false →
      (if t.sortAscending then strLt c a else strLt a c) = false := by
    intro a b c h1 h2
    by_cases hd : t.sortAscending <;> simp only [hd, if_true, if_false] at h1 h2 ⊢
    · exact strLt_negtrans _ _ _ h1 h2
    · exact strLt_negtrans _ _ _ h2 h1
  have hcore := @toggle_core
    (fun x y => if t.sortAscending then strLt x y else strLt y x) A1 A2
    ((t.Sort).keyOf) t.resources.length (sort_sorted_keys t hguard hlen hcell)
  simp only [] at hcore
  -- the first toggle sorts the direction-flipped sorted table
  have hguardS : ¬((t.Sort).sortColumn = -1 ∨
      (t.Sort).sortColumn ≥ (((t.Sort).columns.length : Int)) ∨
      (t.Sort).resources.length = 0) := by
    rw [hsc, hcols, hslenres]
    exact hguard
  have htg1 : (t.Sort).ToggleSortDirection = (t.Sort).flipAsc.Sort :=
    toggle_eq_sort_flip (t.Sort) (by rw [hsc]; omega)
  have hguard1 := flipAsc_guard (t.Sort) hguardS
  have hlen1 := flipAsc_hlen (t.Sort) hs_hlen
  have hcell1 := flipAsc_hcell (t.Sort) hs_hcell
  have hσ₂ : (t.Sort).flipAsc.sortIndices = gosort
      (fun i j => if t.sortAscending then strLt ((t.Sort).keyOf j) ((t.Sort).keyOf i)
                  else strLt ((t.Sort).keyOf i) ((t.Sort).keyOf j))
      (range t.resources.length) := by
    have h := flipAsc_sortIndices (t.Sort) hs_hlen hs_hcell
    rw [hasc, hslenres] at h
    exact h
  obtain ⟨hr1, hres1, hcols1, hsc1, hasc1⟩ := sort_fields ((t.Sort).flipAsc) hguard1
  obtain ⟨hslenr1, hslenres1⟩ := sort_rows_length ((t.Sort).flipAsc) hguard1
  have ht1rlen : ((t.Sort).flipAsc.Sort).rows.length = t.resources.length := by
    have h' : ((t.Sort).flipAsc.Sort).rows.length = (t.Sort).resources.length := hslenr1
    rw [hslenres] at h'
    exact h'
  have ht1len : ((t.Sort).flipAsc.Sort).resources.length = t.resources.length := by
    have h' : ((t.Sort).flipAsc.Sort).resources.length = (t.Sort).resources.length :=
      hslenres1
    rw [hslenres] at h'
    exact h'
  have ht1_hlen : ((t.Sort).flipAsc.Sort).rows.length
      = ((t.Sort).flipAsc.Sort).resources.length := by rw [ht1rlen, ht1len]
  have ht1_hcell := sort_hcell ((t.Sort).flipAsc) hguard1 hlen1 hcell1
  have ht1sc : ((t.Sort).flipAsc.Sort).sortColumn = t.sortColumn := by
    rw [hsc1]
    exact hsc
  have ht1cols : ((t.Sort).flipAsc.Sort).columns = t.columns := by
    rw [hcols1]
    exact hcols
  have ht1asc : ((t.Sort).flipAsc.Sort).sortAscending = !t.sortAscending := by
    rw [hasc1]
    show (!(t.Sort).sortAscending) = !t.sortAscending
    rw [hasc]
  have ht1_key : ∀ p, p < t.resources.length →
      ((t.Sort).flipAsc.Sort).keyOf p
        = (t.Sort).keyOf (((t.Sort).flipAsc.sortIndices).getD p 0) := by
    intro p hp
    have h := sort_keyOf ((t.Sort).flipAsc) hguard1 p
      (show p < (t.Sort).resources.length by rw [hslenres]; exact hp)
    rw [flipAsc_keyOf] at h
    exact h
  -- the second toggle sorts the (again flipped) once-toggled table
  have hguardT1 : ¬(((t.Sort).flipAsc.Sort).sortColumn = -1 ∨
      ((t.Sort).flipAsc.Sort).sortColumn ≥
        ((((t.Sort).flipAsc.Sort).columns.length : Int)) ∨
      ((t.Sort).flipAsc.Sort).resources.length = 0) := by
    rw [ht1sc, ht1cols, ht1len]
    exact hguard
  have hguard2 := flipAsc_guard ((t.Sort).flipAsc.Sort) hguardT1
  have htg2 : ((t.Sort).flipAsc.Sort).ToggleSortDirection
      = ((t.Sort).flipAsc.Sort).flipAsc.Sort :=
    toggle_eq_sort_flip ((t.Sort).flipAsc.Sort) (by rw [ht1sc]; omega)
  have hσ₃ : ((t.Sort).flipAsc.Sort).flipAsc.sortIndices = gosort
      (fun i j => if t.sortAscending
        then strLt ((t.Sort).keyOf (((t.Sort).flipAsc.sortIndices).getD i 0))
                   ((t.Sort).keyOf (((t.Sort).flipAsc.sortIndices).getD j 0))
        else strLt ((t.Sort).keyOf (((t.Sort).flipAsc.sortIndices).getD j 0))
                   ((t.Sort).keyOf (((t.Sort).flipAsc.sortIndices).getD i 0)))
      (range t.resources.length) := by
    have h := flipAsc_sortIndices ((t.Sort).flipAsc.Sort) ht1_hlen ht1_hcell
    rw [ht1asc, ht1len] at h
    rw [h]
    apply gosort_congr
    intro i hi j hj
    simp only [ht1_key i (mem_range.mp hi), ht1_key j (mem_range.mp hj)]
    cases hb : t.sortAscending <;> simp [hb]
  rw [← hσ₂] at hcore
  rw [← hσ₃] at hcore
  -- lengths and membership bounds for the final chain
  have hσ₂len : ((t.Sort).flipAsc.sortIndices).length = t.resources.length := by
    have h' : ((t.Sort).flipAsc.sortIndices).length = (t.Sort).resources.length :=
      sortIndices_length ((t.Sort).flipAsc)
    rw [hslenres] at h'
    exact h'
  have hmem3 : ∀ i ∈ ((t.Sort).flipAsc.Sort).flipAsc.sortIndices,
      i < t.resources.length := by
    intro i hi
    have hp := sortIndices_perm (((t.Sort).flipAsc.Sort).flipAsc)
    have h2 : i < (((t.Sort).flipAsc.Sort)).resources.length :=
      mem_range.mp (hp.subset hi)
    rw [ht1len] at h2
    exact h2
  obtain ⟨hr2, hres2, -, -, -⟩ := sort_fields (((t.Sort).flipAsc.Sort).flipAsc) hguard2
  rw [(flipAsc_fields (t.Sort)).1] at hr1
  rw [(flipAsc_fields (t.Sort)).2.1] at hres1
  rw [(flipAsc_fields ((t.Sort).flipAsc.Sort)).1] at hr2
  rw [(flipAsc_fields ((t.Sort).flipAsc.Sort)).2.1] at hres2
  constructor
  · rw [htg1, htg2, hr2, hr1]
    calc (((t.Sort).flipAsc.Sort).flipAsc.sortIndices).map
          (fun i => (((t.Sort).flipAsc.sortIndices).map
            (fun i => (t.Sort).rows.getD i [])).getD i [])
        = (((t.Sort).flipAsc.Sort).flipAsc.sortIndices).map
            (fun i => (t.Sort).rows.getD (((t.Sort).flipAsc.sortIndices).getD i 0) []) :=
          List.map_congr_left (fun i hi => getD_map_of_lt _ _ i
            (by rw [hσ₂len]; exact hmem3 i hi) [] 0)
      _ = ((((t.Sort).flipAsc.Sort).flipAsc.sortIndices).map
            (fun p => ((t.Sort).flipAsc.sortIndices).getD p 0)).map
            (fun i => (t.Sort).rows.getD i []) := by
          rw [List.map_map]
          rfl
      _ = (range t.resources.length).map (fun i => (t.Sort).rows.getD i []) := by
          rw [hcore]
      _ = (t.Sort).rows := map_getD_range _ [] _ hslenr
  · rw [htg1, htg2, hres2, hres1]
    calc (((t.Sort).flipAsc.Sort).flipAsc.sortIndices).map
          (fun i => (((t.Sort).flipAsc.sortIndices).map
            (fun i => (t.Sort).resources.getD i emptyResource)).getD i emptyResource)
        = (((t.Sort).flipAsc.Sort).flipAsc.sortIndices).map
            (fun i => (t.Sort).resources.getD
              (((t.Sort).flipAsc.sortIndices).getD i 0) emptyResource) :=
          List.map_congr_left (fun i hi => getD_map_of_lt _ _ i
            (by rw [hσ₂len]; exact hmem3 i hi) emptyResource 0)
      _ = ((((t.Sort).flipAsc.Sort).flipAsc.sortIndices).map
            (fun p => ((t.Sort).flipAsc.sortIndices).getD p 0)).map
            (fun i => (t.Sort).resources.getD i emptyResource) := by
          rw [List.map_map]
          rfl
      _ = (range t.resources.length).map
            (fun i => (t.Sort).resources.getD i emptyResource) := by
          rw [hcore]
      _ = (t.Sort).resources := map_getD_range _ emptyResource _ hslenres

/-- C5 — Sort stability and toggle involution (table.go 197-264): with a
valid sortable column (every row carrying a cell in it, rows and resources
aligned), Table.Sort reorders rows and resources by the stable bubble-sorted
index slice; rows whose sort keys are equal keep their original relative
order in that slice; and ToggleSortDirection applied twice from the sorted
state restores the exact row and resource order, not merely the multiset. -/
theorem C5_sort_stability_and_toggle (t : Table)
    (hc0 : 0 ≤ t.sortColumn) (hc1 : t.sortColumn < (t.columns.length : Int))
    (hlen : t.rows.length = t.resources.length)
    (hcell : ∀ i, i < t.rows.length → t.sortColumn.toNat < (t.rows.getD i []).length) :
    ((t.Sort).rows = t.sortIndices.map (fun i => t.rows.getD i []) ∧
     (t.Sort).resources = t.sortIndices.map (fun i => t.resources.getD i emptyResource) ∧
     (∀ p q, p < q → q < t.resources.length → t.keyOf p = t.keyOf q →
        [p, q] <+ t.sortIndices)) ∧
    (((t.Sort).ToggleSortDirection).ToggleSortDirection).rows = (t.Sort).rows ∧
    (((t.Sort).ToggleSortDirection).ToggleSortDirection).resources = (t.Sort).resources := by
  by_cases hn : t.resources.length = 0
  · -- empty page: Sort and both toggles leave the data untouched
    have hrows0 : t.rows = [] := eq_nil_of_length_eq_zero (by omega)
    have hres0 : t.resources = [] := eq_nil_of_length_eq_zero hn
    have hidx : t.sortIndices = [] := by
      have h := sortIndices_length t
      rw [hn] at h
      exact eq_nil_of_length_eq_zero h
    have hSt : t.Sort = t := by
      unfold Table.Sort
      rw [if_pos (Or.inr (Or.inr hn))]
    have htg1 : t.ToggleSortDirection = t.flipAsc := by
      rw [toggle_eq_sort_flip t (by omega)]
      unfold Table.Sort
      rw [if_pos (Or.inr (Or.inr (show t.flipAsc.resources.length = 0 from hn)))]
    have htg2 : t.flipAsc.ToggleSortDirection = t.flipAsc.flipAsc := by
      rw [toggle_eq_sort_flip t.flipAsc
        (show ¬t.flipAsc.sortColumn = -1 by show ¬t.sortColumn = -1; omega)]
      unfold Table.Sort
      rw [if_pos (Or.inr (Or.inr (show t.flipAsc.flipAsc.resources.length = 0 from hn)))]
    refine ⟨⟨?_, ?_, ?_⟩, ?_, ?_⟩
    · rw [hSt, hidx, hrows0]
      rfl
    · rw [hSt, hidx, hres0]
      rfl
    · intro p q _ hq _
      omega
    · rw [hSt, htg1, htg2]
      rfl
    · rw [hSt, htg1, htg2]
      rfl
  · have hguard : ¬(t.sortColumn = -1 ∨ t.sortColumn ≥ (t.columns.length : Int) ∨
        t.resources.length = 0) := by
      push_neg
      exact ⟨by omega, by omega, hn⟩
    obtain ⟨hr, hres, -, -, -⟩ := sort_fields t hguard
    exact ⟨⟨hr, hres, fun p q hpq hq hkey =>
        sortIndices_stable t hlen hcell hpq hq hkey⟩,
      sort_toggle_twice t hc0 hc1 hlen hcell hn⟩

/-- Witness for C5 at the concrete three-row table with a duplicate key. -/
theorem C5_sort_stability_and_toggle_witness :
    (0 ≤ c5Table.sortColumn ∧ c5Table.sortColumn < (c5Table.columns.length : Int) ∧
     c5Table.rows.length = c5Table.resources.length ∧
     (∀ i, i < c5Table.rows.length →
        c5Table.sortColumn.toNat < (c5Table.rows.getD i []).length)) ∧
    (((c5Table.Sort).rows = c5Table.sortIndices.map (fun i => c5Table.rows.getD i []) ∧
      (c5Table.Sort).resources
        = c5Table.sortIndices.map (fun i => c5Table.resources.getD i emptyResource) ∧
      (∀ p q, p < q → q < c5Table.resources.length →
         c5Table.keyOf p = c5Table.keyOf q → [p, q] <+ c5Table.sortIndices)) ∧
     (((c5Table.Sort).ToggleSortDirection).ToggleSortDirection).rows
        = (c5Table.Sort).rows ∧
     (((c5Table.Sort).ToggleSortDirection).ToggleSortDirection).resources
        = (c5Table.Sort).resources) :=
  ⟨⟨by decide, by decide, by decide, by decide⟩,
   C5_sort_stability_and_toggle c5Table (by decide) (by decide) (by decide) (by decide)⟩
